import Mathlib

/-!
# Threads: console controller for a fixed pool of worker threads

Shallow embedding of `src/threads.cpp`.

* The shared atomics (`runFlag`, `menuPause`, `messageIntervalMs`,
  `threadActive`) form the record `Shared`.
* The controller (`main`) is written in state-passing style over `Ctl`; every
  atomic effect it performs (a store, a locked print, a read from `cin`, a
  sleep, a thread spawn or join) is appended to `Ctl.acts` in program order.
* A worker (`threadFunc`) is a small-step machine over program points `WPc`;
  each step performs at most one access to the shared state.
* `Sys` interleaves the controller with the three workers.

All C++ `int` values are modelled by `Int`; no computation of the program
leaves the 32-bit range when its inputs are in it (`max`, `min`, `id - 1`
with `1 ≤ id ≤ 3`, and `elapsed + step ≤ interval`).

The outcome of every `cin >> x` is supplied by the environment as an
`Option Int` (`none`: the extraction failed, i.e. the token was not an
integer, or the stream is at end of file).
-/

namespace Threads

/-! ## Constants (lines 15–17) -/

/-- Number of worker threads, `kThreadCount`. -/
abbrev kThreadCount : Nat := 3

/-- Poll period while the menu owns the console, `kPauseCheck`, in milliseconds. -/
def kPauseCheck : Int := 50

/-- Lower bound of the reporting interval, `kMinIntervalMs`. -/
def kMinIntervalMs : Int := 100

/-! ## Shared state (lines 20–24) -/

/-- The atomics shared by all threads. -/
structure Shared where
  runFlag : Bool
  menuPause : Bool
  messageIntervalMs : Int
  threadActive : Fin kThreadCount → Bool
  deriving DecidableEq

/-- Values of the globals when `main` is entered: the initialisers of lines
20–22, and a zero-initialised `threadActive` array. -/
def Shared.initial : Shared :=
  { runFlag := true, menuPause := false, messageIntervalMs := 500,
    threadActive := fun _ => false }

/-! ## Console lines -/

/-- Lines written to `cout`; the wording is abstracted, the payload is kept. -/
inductive Msg where
  /-- Lines 114–121. -/
  | menu
  /-- Line 128. -/
  | badChoice
  /-- Line 142. -/
  | askThread
  /-- Line 150. -/
  | badThreadInput
  /-- Line 155. -/
  | noSuchThread
  /-- Lines 163–165. -/
  | toggled (id : Int) (newState : Bool)
  /-- Lines 173–174. -/
  | askInterval
  /-- Line 182. -/
  | badIntervalInput
  /-- Line 190. -/
  | newInterval (interval : Int)
  /-- Line 198. -/
  | allStarted
  /-- Line 204. -/
  | allStopped
  /-- Line 211. -/
  | noSuchItem
  /-- Lines 66–71, `showStatus`. -/
  | status (flags : Fin kThreadCount → Bool)
  /-- Line 100. -/
  | pressEnter
  /-- Line 48, worker `id` announces work. -/
  | working (id : Int)
  /-- Line 61, worker `id` announces its termination. -/
  | terminated (id : Int)
  /-- Line 239. -/
  | programFinished
  deriving DecidableEq

/-! ## Controller actions -/

/-- Atomic effects of the controller thread. -/
inductive Act where
  | storeRun (b : Bool)
  | storePause (b : Bool)
  | storeInterval (v : Int)
  | storeActive (k : Fin kThreadCount) (b : Bool)
  /-- One locked write to `cout`. -/
  | print (m : Msg)
  /-- The extraction `cin >> x` together with its outcome. -/
  | readInt (r : Option Int)
  /-- The recovery `cin.clear(); cin.ignore(max, newline)`. -/
  | discardLine
  /-- Lines 94–96: drop what is still buffered of the current line. -/
  | skipBuffered
  /-- Line 105, `cin.get()`. -/
  | getChar
  | sleep (ms : Int)
  /-- Line 82, `threads.emplace_back(threadFunc, i)`. -/
  | spawn (k : Fin kThreadCount)
  /-- Line 235, `t.join()`. -/
  | join (k : Fin kThreadCount)
  /-- The call of the lambda `waitForEnter` (line 221). -/
  | enterWait
  deriving DecidableEq

/-- The argument `id` of `threadFunc` for the worker that owns slot `k` of
`threadActive` (line 32: `threadActive[id - 1]`). -/
def workerId (k : Fin kThreadCount) : Int := (k.val : Int) + 1

/-- Effect of a controller action on the shared state. -/
def Act.apply (s : Shared) : Act → Shared
  | .storeRun b => { s with runFlag := b }
  | .storePause b => { s with menuPause := b }
  | .storeInterval v => { s with messageIntervalMs := v }
  | .storeActive k b =>
      { s with threadActive := fun j => if j = k then b else s.threadActive j }
  | _ => s

/-- Controller thread: the shared state as it sees it, the outcomes of the
reads still to come, and the actions performed so far. -/
structure Ctl where
  st : Shared
  input : List (Option Int)
  acts : List Act
  deriving DecidableEq

/-- Perform one action. -/
def Ctl.act (c : Ctl) (a : Act) : Ctl :=
  { c with st := a.apply c.st, acts := c.acts ++ [a] }

/-- The extraction `cin >> x`: the next outcome of the environment; an
exhausted input is end of file, where every extraction fails. -/
def Ctl.readInt (c : Ctl) : Option Int × Ctl :=
  match c.input with
  | [] => (none, c.act (.readInt none))
  | r :: rest => (r, Ctl.act { c with input := rest } (.readInt r))

/-- Range-for over `threadActive` storing `b` in every slot
(lines 75–77, 195–197, 201–203, 229–231). -/
def storeAll (b : Bool) (c : Ctl) : Ctl :=
  ((c.act (.storeActive 0 b)).act (.storeActive 1 b)).act (.storeActive 2 b)

/-- Lines 64–72. -/
def showStatus (c : Ctl) : Ctl :=
  c.act (.print (.status c.st.threadActive))

/-- Lines 26–29. -/
def printLocked (m : Msg) (c : Ctl) : Ctl :=
  c.act (.print m)

/-- Lines 86–107; `interactiveInput` is the result of `isatty` (line 85). -/
def waitForEnter (interactiveInput : Bool) (c : Ctl) : Ctl :=
  let c := c.act .enterWait
  if !interactiveInput then
    let c := c.act (.storePause false)
    let c := c.act (.sleep c.st.messageIntervalMs)
    c.act (.storePause true)
  else
    let c := c.act .skipBuffered
    let c := c.act (.print .pressEnter)
    let c := c.act (.storePause false)
    let c := c.act .getChar
    c.act (.storePause true)

/-- The `switch (choice)` of lines 135–213. The result carries the value of
`waitAfterAction` after the switch. -/
def dispatch (choice : Int) (c : Ctl) : Ctl × Bool :=
  if choice = 1 then
    (showStatus c, true)
  else if choice = 2 then
    let c := c.act (.print .askThread)
    match c.readInt with
    | (none, c) =>
      let c := c.act .discardLine
      (printLocked .badThreadInput c, true)
    | (some id, c) =>
      if h : id < 1 ∨ id > kThreadCount then
        (printLocked .noSuchThread c, true)
      else
        let k : Fin kThreadCount := ⟨(id - 1).toNat, by omega⟩
        let newState := !c.st.threadActive k
        let c := c.act (.storeActive k newState)
        (c.act (.print (.toggled id newState)), true)
  else if choice = 3 then
    let c := c.act (.print .askInterval)
    match c.readInt with
    | (none, c) =>
      let c := c.act .discardLine
      (printLocked .badIntervalInput c, true)
    | (some interval, c) =>
      let interval := max interval kMinIntervalMs
      let c := c.act (.storeInterval interval)
      (c.act (.print (.newInterval interval)), true)
  else if choice = 4 then
    (printLocked .allStarted (storeAll true c), true)
  else if choice = 5 then
    (printLocked .allStopped (storeAll false c), true)
  else if choice = 0 then
    (c.act (.storeRun false), false)
  else
    (printLocked .noSuchItem c, true)

/-- How an iteration of the menu loop ends. -/
inductive Flow where
  /-- Back to the loop condition of line 110. -/
  | again
  /-- The `break` of line 217. -/
  | leave
  deriving DecidableEq

/-- One iteration of the menu loop, lines 111–226. -/
def menuBody (interactiveInput : Bool) (c : Ctl) : Ctl × Flow :=
  let c := c.act (.storePause true)
  let c := c.act (.print .menu)
  match c.readInt with
  | (none, c) =>
    let c := c.act .discardLine
    let c := printLocked .badChoice c
    (c.act (.storePause false), .again)
  | (some choice, c) =>
    match dispatch choice c with
    | (c, waitAfterAction) =>
      if !c.st.runFlag then
        (c.act (.storePause false), .leave)
      else if waitAfterAction then
        (waitForEnter interactiveInput c, .again)
      else
        let c := c.act (.storePause false)
        let c := c.act (.sleep kPauseCheck)
        (c.act (.storePause true), .again)

/-- The loop `while (runFlag.load())` of lines 110–227, run for at most
`fuel` iterations. The flag of the result tells whether the loop was left. -/
def menuLoop (interactiveInput : Bool) : Nat → Ctl → Ctl × Bool
  | 0, c => (c, false)
  | fuel + 1, c =>
    if c.st.runFlag then
      match menuBody interactiveInput c with
      | (c, .leave) => (c, true)
      | (c, .again) => menuLoop interactiveInput fuel c
    else (c, true)

/-- Lines 75–83: reset of the flags and creation of the workers. -/
def startup (c : Ctl) : Ctl :=
  let c := storeAll false c
  ((c.act (.spawn 0)).act (.spawn 1)).act (.spawn 2)

/-- Lines 229–239: reset of the flags, joins, final line. -/
def shutdown (c : Ctl) : Ctl :=
  let c := storeAll false c
  let c := ((c.act (.join 0)).act (.join 1)).act (.join 2)
  printLocked .programFinished c

/-- Lines 109–240 of `main`, from the menu loop on: the final controller and
the exit code, or `none` when the menu loop is still running after `fuel`
iterations. -/
def mainFromLoop (interactiveInput : Bool) (fuel : Nat) (c : Ctl) : Option (Ctl × Int) :=
  match menuLoop interactiveInput fuel c with
  | (c, true) => some (shutdown c, 0)
  | (_, false) => none

/-- The function `main`. -/
def main (interactiveInput : Bool) (fuel : Nat) (input : List (Option Int)) :
    Option (Ctl × Int) :=
  mainFromLoop interactiveInput fuel
    (startup { st := Shared.initial, input := input, acts := [] })

/-! ## Worker thread (lines 31–62) -/

/-- Program points of `threadFunc`. -/
inductive WPc where
  /-- The thread object does not exist yet. -/
  | notStarted
  /-- Line 35, `runFlag.load()`. -/
  | loopHead
  /-- Line 36, `menuPause.load()`, and the sleep of line 37. -/
  | chkPause
  /-- Line 41, `activeFlag.load()`, and the sleep of line 42. -/
  | chkActive
  /-- Lines 46–49, the locked announcement. -/
  | announce
  /-- Lines 51–52, `messageIntervalMs.load()` and `elapsed = 0`. -/
  | loadInterval
  /-- Line 53, `elapsed < interval && runFlag.load()`. -/
  | innerRun (interval elapsed : Int)
  /-- Line 53, `activeFlag.load()`. -/
  | innerActive (interval elapsed : Int)
  /-- Line 53, `!menuPause.load()`, and lines 54–56 when the condition holds. -/
  | innerPause (interval elapsed : Int)
  /-- Lines 60–61, the locked termination notice. -/
  | farewell
  /-- The function has returned. -/
  | done
  deriving DecidableEq

/-- Effects of a worker step that are visible from outside. -/
inductive WEv where
  | say (m : Msg)
  | nap (ms : Int)
  deriving DecidableEq

/-- One step of worker `k` (`threadFunc (k + 1)`, whose `activeFlag` is
`threadActive[k]`) in shared state `s`. A worker never writes the shared
state, so the result is the next program point and the effect, if any. -/
def threadFuncStep (k : Fin kThreadCount) (s : Shared) : WPc → WPc × Option WEv
  | .notStarted => (.notStarted, none)
  | .loopHead => if s.runFlag then (.chkPause, none) else (.farewell, none)
  | .chkPause =>
    if s.menuPause then (.loopHead, some (.nap kPauseCheck)) else (.chkActive, none)
  | .chkActive =>
    if !s.threadActive k then (.loopHead, some (.nap 100)) else (.announce, none)
  | .announce => (.loadInterval, some (.say (.working (workerId k))))
  | .loadInterval => (.innerRun s.messageIntervalMs 0, none)
  | .innerRun interval elapsed =>
    if elapsed < interval ∧ s.runFlag then (.innerActive interval elapsed, none)
    else (.loopHead, none)
  | .innerActive interval elapsed =>
    if s.threadActive k then (.innerPause interval elapsed, none) else (.loopHead, none)
  | .innerPause interval elapsed =>
    if !s.menuPause then
      let step := min 100 (interval - elapsed)
      (.innerRun interval (elapsed + step), some (.nap step))
    else (.loopHead, none)
  | .farewell => (.done, some (.say (.terminated (workerId k))))
  | .done => (.done, none)

/-- Run worker `k` for `n` steps; its `j`-th step, counted from `t`, sees the
shared state `obs (t + j)`. -/
def wrun (k : Fin kThreadCount) (obs : Nat → Shared) : Nat → Nat → WPc → WPc × List WEv
  | 0, _, pc => (pc, [])
  | n + 1, t, pc =>
    let r := threadFuncStep k (obs t) pc
    let q := wrun k obs n (t + 1) r.1
    (q.1, r.2.toList ++ q.2)

/-- Run worker `k` until it is back at the loop condition of line 35 or has
returned, for at most `fuel` steps (at least one step is taken). -/
def runToHead (k : Fin kThreadCount) (obs : Nat → Shared) :
    Nat → Nat → WPc → Option (WPc × List WEv)
  | 0, _, _ => none
  | fuel + 1, t, pc =>
    let r := threadFuncStep k (obs t) pc
    if r.1 = .loopHead ∨ r.1 = .done then some (r.1, r.2.toList)
    else (runToHead k obs fuel (t + 1) r.1).map fun q => (q.1, r.2.toList ++ q.2)

/-! ## The whole program: controller and workers interleaved

Every shared variable is a sequentially consistent atomic and `cout` is only
written under `coutMutex`, so an execution of the program is an interleaving
of the atomic actions of its four threads. Only the controller writes the
shared state; the actions of one loop iteration are therefore determined by
the shared state and the input at the loop condition, and `menuBody` lists
them in program order. -/

/-- The threads of the program. -/
inductive Tid where
  | controller
  | worker (k : Fin kThreadCount)
  deriving DecidableEq

/-- An entry of the global log: an action of the controller, or an effect of
a worker. -/
inductive Ev where
  | ctl (a : Act)
  | wrk (k : Fin kThreadCount) (e : WEv)
  deriving DecidableEq

/-- Where the controller is once its pending actions are performed. -/
inductive Phase where
  /-- At the loop condition of line 110. -/
  | menu
  /-- At the `return` of line 240. -/
  | final
  deriving DecidableEq

/-- A state of the whole program. -/
structure Sys where
  shared : Shared
  input : List (Option Int)
  /-- Actions of the controller up to its next loop condition, in program order. -/
  pending : List Act
  phase : Phase
  workers : Fin kThreadCount → WPc
  log : List Ev

/-- The program when `main` is entered: the startup actions are pending. -/
def Sys.initial (input : List (Option Int)) : Sys :=
  { shared := Shared.initial, input := input,
    pending := (startup ⟨Shared.initial, input, []⟩).acts,
    phase := .menu, workers := fun _ => .notStarted, log := [] }

/-- One step of the controller. With a pending action: perform it (a `join`
of a worker that has not returned blocks). At the loop condition: load
`runFlag`, and continue with the actions of the next iteration, followed by
those of `shutdown` when the loop is left. -/
def cstep (interactiveInput : Bool) (sys : Sys) : Option Sys :=
  match sys.pending with
  | a :: rest =>
    let sys1 : Sys :=
      { sys with shared := a.apply sys.shared, pending := rest, log := sys.log ++ [.ctl a] }
    match a with
    | .join k => if sys.workers k = .done then some sys1 else none
    | .spawn k =>
      some { sys1 with workers := fun j => if j = k then .loopHead else sys.workers j }
    | _ => some sys1
  | [] =>
    match sys.phase with
    | .final => none
    | .menu =>
      if sys.shared.runFlag then
        match menuBody interactiveInput ⟨sys.shared, sys.input, []⟩ with
        | (c, .again) => some { sys with input := c.input, pending := c.acts }
        | (c, .leave) =>
          some { sys with input := c.input,
                          pending := c.acts ++ (shutdown ⟨c.st, c.input, []⟩).acts,
                          phase := .final }
      else
        some { sys with pending := (shutdown ⟨sys.shared, sys.input, []⟩).acts,
                        phase := .final }

/-- One step of worker `k`. -/
def workerStep (k : Fin kThreadCount) (sys : Sys) : Sys :=
  let r := threadFuncStep k sys.shared (sys.workers k)
  { sys with workers := fun j => if j = k then r.1 else sys.workers j,
             log := sys.log ++ (r.2.toList.map (Ev.wrk k)) }

/-- One step of thread `tid`; `none` when the thread cannot move. -/
def step (interactiveInput : Bool) (sys : Sys) : Tid → Option Sys
  | .controller => cstep interactiveInput sys
  | .worker k => some (workerStep k sys)

/-- Run the threads in the order given by a schedule. -/
def runSched (interactiveInput : Bool) : List Tid → Sys → Option Sys
  | [], sys => some sys
  | tid :: rest, sys =>
    match step interactiveInput sys tid with
    | none => none
    | some sys1 => runSched interactiveInput rest sys1

/-- Whether no work notice is logged between a print of the menu and the read
of the menu choice that follows it; the flag tells whether such a prompt is
open at the start of the log. -/
def quietPrompts : Bool → List Ev → Bool
  | _, [] => true
  | _, .ctl (.print .menu) :: rest => quietPrompts true rest
  | _, .ctl (.readInt _) :: rest => quietPrompts false rest
  | open_, .wrk _ (.say (.working _)) :: rest => !open_ && quietPrompts open_ rest
  | open_, _ :: rest => quietPrompts open_ rest

/-- A schedule: `n` consecutive steps of thread `tid`. -/
def turns (n : Nat) (tid : Tid) : List Tid := List.replicate n tid

/-- First part of the schedule of the race on the menu prompt, with the input
`4` (start all) then `0` (exit): the controller starts all workers and opens
the confirmation wait; worker 1 passes its tests of lines 35, 36 and 41; the
controller leaves the wait, sets `menuPause` and prints the menu. -/
def racePrefix : List Tid :=
  turns 18 .controller ++ turns 3 (.worker 0) ++ turns 5 .controller

/-- The whole schedule: after `racePrefix`, worker 1 prints its work notice
and the controller reads the choice; the rest runs the program to its end. -/
def raceSchedule : List Tid :=
  racePrefix ++ turns 1 (.worker 0) ++ turns 1 .controller
    ++ turns 5 .controller ++ turns 5 (.worker 0) ++ turns 2 (.worker 1)
    ++ turns 2 (.worker 2) ++ turns 4 .controller

/-! ## Auxiliary notions used in the statements -/

/-- The outcomes read by `n` successive toggle commands for worker `id`
(menu choice 2, then the index), followed by `rest`. -/
def toggleInput (id : Int) : Nat → List (Option Int) → List (Option Int)
  | 0, rest => rest
  | n + 1, rest => some 2 :: some id :: toggleInput id n rest

/-- An upper bound on the number of steps a worker at program point `pc`
still takes before it has returned, once the run flag is cleared. -/
def stepsToReturn : WPc → Nat
  | .notStarted => 0
  | .done => 0
  | .farewell => 1
  | .loopHead => 2
  | .innerRun _ _ => 3
  | .innerPause _ _ => 4
  | .loadInterval => 4
  | .innerActive _ _ => 5
  | .announce => 5
  | .chkActive => 6
  | .chkPause => 7

/-- Whether a worker effect is a work notice (line 48). -/
def isWorkNotice : WEv → Bool
  | .say (.working _) => true
  | _ => false

/-- Number of work notices a worker at program point `pc` can still print
without passing the test of `menuPause` of line 36 again. -/
def pendingNotices : WPc → Nat
  | .chkActive => 1
  | .announce => 1
  | _ => 0

/-- A shared state that no longer changes, as a stream of observations. -/
def steady (s : Shared) : Nat → Shared := fun _ => s

/-- All workers active, the menu not paused, reporting interval `v`. -/
def allActive (v : Int) : Shared :=
  { runFlag := true, menuPause := false, messageIntervalMs := v, threadActive := fun _ => true }

/-- All workers active before step `n`, every `threadActive` slot cleared from
step `n` on; reporting interval `v`. -/
def stoppedAt (n : Nat) (v : Int) : Nat → Shared := fun j =>
  if j < n then allActive v else { allActive v with threadActive := fun _ => false }

/-! ## Controller: basic facts -/

theorem workerId_range (k : Fin kThreadCount) : 1 ≤ workerId k ∧ workerId k ≤ 3 := by
  have hlt : k.val < 3 := k.isLt
  unfold workerId; omega

theorem workerId_onto (id : Int) (h1 : 1 ≤ id) (h3 : id ≤ 3) :
    ∃ k : Fin kThreadCount, workerId k = id :=
  ⟨⟨(id - 1).toNat, by show (id - 1).toNat < 3; omega⟩, by
    have h : (((id - 1).toNat : Nat) : Int) = id - 1 := Int.toNat_of_nonneg (by omega)
    simp only [workerId, h]; ring⟩

theorem workerId_slot (k : Fin kThreadCount) (h : (workerId k - 1).toNat < kThreadCount) :
    (⟨(workerId k - 1).toNat, h⟩ : Fin kThreadCount) = k := by
  apply Fin.ext; simp only [workerId]; omega

theorem workerId_inj (j k : Fin kThreadCount) : workerId j = workerId k ↔ j = k := by
  constructor
  · intro h; apply Fin.ext; simp only [workerId] at h; omega
  · intro h; rw [h]

theorem waitForEnter_st (tty : Bool) (c : Ctl) :
    (waitForEnter tty c).st = { c.st with menuPause := true } := by
  cases tty <;> simp [waitForEnter, Ctl.act, Act.apply]

theorem waitForEnter_input (tty : Bool) (c : Ctl) :
    (waitForEnter tty c).input = c.input := by
  cases tty <;> simp [waitForEnter, Ctl.act]

theorem waitForEnter_acts (tty : Bool) (c : Ctl) :
    (waitForEnter tty c).acts = c.acts ++ (waitForEnter tty ⟨c.st, c.input, []⟩).acts := by
  cases tty <;> simp [waitForEnter, Ctl.act, Act.apply]

theorem enterWait_mem_waitForEnter (tty : Bool) (c : Ctl) :
    Act.enterWait ∈ (waitForEnter tty c).acts := by
  cases tty <;> simp [waitForEnter, Ctl.act]

theorem dispatch_toggle (k : Fin kThreadCount) (s : Shared)
    (rest : List (Option Int)) (acts : List Act) :
    dispatch 2 ⟨s, some (workerId k) :: rest, acts⟩ =
      (⟨{ s with threadActive := fun j => if j = k then !s.threadActive k else s.threadActive j },
          rest,
          acts ++ [.print .askThread,
            .readInt (some (workerId k)), .storeActive k (!s.threadActive k),
            .print (.toggled (workerId k) (!s.threadActive k))]⟩, true) := by
  have hr := workerId_range k
  have hk : ¬ (workerId k < 1 ∨ workerId k > (kThreadCount : Int)) := by
    simp only [kThreadCount]; push_cast; omega
  unfold dispatch
  simp only [Ctl.act, Ctl.readInt, Act.apply]
  rw [if_true, dif_neg hk]
  simp only [workerId_slot, List.append_assoc, List.singleton_append, List.cons_append, List.nil_append]
  rw [if_neg (by decide)]

theorem dispatch_toggle_invalid (id : Int) (h : id < 1 ∨ 3 < id) (s : Shared)
    (rest : List (Option Int)) (acts : List Act) :
    dispatch 2 ⟨s, some id :: rest, acts⟩ =
      (⟨s, rest, acts ++ [.print .askThread, .readInt (some id), .print .noSuchThread]⟩, true) := by
  have hk : id < 1 ∨ id > (kThreadCount : Int) := by
    simp only [kThreadCount]; push_cast; omega
  unfold dispatch
  simp only [Ctl.act, Ctl.readInt, Act.apply, printLocked]
  rw [if_true, dif_pos hk]
  simp only [List.append_assoc, List.singleton_append, List.cons_append, List.nil_append]
  rw [if_neg (by decide)]

theorem menuBody_some (tty : Bool) (choice : Int) (s : Shared)
    (rest : List (Option Int)) (acts : List Act) :
    menuBody tty ⟨s, some choice :: rest, acts⟩ =
      match dispatch choice ⟨{ s with menuPause := true }, rest,
          acts ++ [.storePause true, .print .menu, .readInt (some choice)]⟩ with
      | (c, waitAfterAction) =>
        if !c.st.runFlag then
          (c.act (.storePause false), .leave)
        else if waitAfterAction then
          (waitForEnter tty c, .again)
        else
          (((c.act (.storePause false)).act (.sleep kPauseCheck)).act (.storePause true), .again) := by
  simp [menuBody, Ctl.readInt, Ctl.act, Act.apply]

theorem menuBody_toggle (tty : Bool) (k : Fin kThreadCount) (s : Shared)
    (rest : List (Option Int)) (acts : List Act) (hrun : s.runFlag = true) :
    menuBody tty ⟨s, some 2 :: some (workerId k) :: rest, acts⟩ =
      (waitForEnter tty
        ⟨{ s with menuPause := true,
                  threadActive := fun j => if j = k then !s.threadActive k else s.threadActive j },
          rest,
          acts ++ [.storePause true, .print .menu, .readInt (some 2), .print .askThread,
            .readInt (some (workerId k)), .storeActive k (!s.threadActive k),
            .print (.toggled (workerId k) (!s.threadActive k))]⟩, .again) := by
  rw [menuBody_some, dispatch_toggle]
  simp [hrun]

/-! ## Toggle command -/

theorem menuLoop_again (tty : Bool) (n : Nat) (c c1 : Ctl) (hrun : c.st.runFlag = true)
    (hb : menuBody tty c = (c1, .again)) :
    menuLoop tty (n + 1) c = menuLoop tty n c1 := by
  simp only [menuLoop, hrun, if_true, hb]

theorem menuLoop_leave (tty : Bool) (n : Nat) (c c1 : Ctl) (hrun : c.st.runFlag = true)
    (hb : menuBody tty c = (c1, .leave)) :
    menuLoop tty (n + 1) c = (c1, true) := by
  simp only [menuLoop, hrun, if_true, hb]

theorem menuBody_toggle_ctl (tty : Bool) (k : Fin kThreadCount) (c : Ctl)
    (rest : List (Option Int)) (hin : c.input = some 2 :: some (workerId k) :: rest)
    (hrun : c.st.runFlag = true) :
    ∃ c1, menuBody tty c = (c1, .again) ∧ c1.input = rest
      ∧ c1.st.runFlag = true
      ∧ c1.st.messageIntervalMs = c.st.messageIntervalMs
      ∧ c1.st.threadActive k = !c.st.threadActive k
      ∧ ∀ j, j ≠ k → c1.st.threadActive j = c.st.threadActive j := by
  obtain ⟨s, i, a⟩ := c
  simp only at hin hrun
  subst hin
  refine ⟨_, menuBody_toggle tty k s rest a hrun, ?_, ?_, ?_, ?_, ?_⟩
  · rw [waitForEnter_input]
  · rw [waitForEnter_st]; exact hrun
  · rw [waitForEnter_st]
  · rw [waitForEnter_st]; simp
  · intro j hj; rw [waitForEnter_st]; simp [hj]

theorem menuLoop_toggles (tty : Bool) (k : Fin kThreadCount) (n : Nat)
    (rest : List (Option Int)) :
    ∀ c : Ctl, c.st.runFlag = true → c.input = toggleInput (workerId k) n rest →
      (menuLoop tty n c).2 = false
      ∧ (menuLoop tty n c).1.input = rest
      ∧ (menuLoop tty n c).1.st.threadActive k
          = (if n % 2 = 1 then !c.st.threadActive k else c.st.threadActive k)
      ∧ (∀ j, j ≠ k → (menuLoop tty n c).1.st.threadActive j = c.st.threadActive j)
      ∧ (menuLoop tty n c).1.st.runFlag = true
      ∧ (menuLoop tty n c).1.st.messageIntervalMs = c.st.messageIntervalMs := by
  induction n with
  | zero => intro c h hin; simp [menuLoop, toggleInput, h] at hin ⊢; exact hin
  | succ n ih =>
    intro c h hin
    obtain ⟨c1, hb, hi1, hr1, hm1, hk1, hj1⟩ :=
      menuBody_toggle_ctl tty k c (toggleInput (workerId k) n rest) hin h
    rw [menuLoop_again tty n c c1 h hb]
    obtain ⟨h1, h2, h3, h4, h5, h6⟩ := ih c1 hr1 hi1
    refine ⟨h1, h2, ?_, ?_, h5, ?_⟩
    · rw [h3, hk1]
      rcases Nat.mod_two_eq_zero_or_one n with h0 | h0
      · have : (n + 1) % 2 = 1 := by omega
        simp [h0, this]
      · have : (n + 1) % 2 = 0 := by omega
        simp [h0, this]
    · intro j hj
      rw [h4 j hj, hj1 j hj]
    · rw [h6, hm1]

/-- C1. After `n` successive toggle commands for worker `workerId k` (menu
choice 2, index `workerId k`; the indices 1..3 are exactly of this form), started in
any state whose run flag is set, the menu loop is still running, has consumed
exactly these commands, and `threadActive[k]` is the initial value flipped
exactly when `n` is odd; from the initial value `false` it is `true` iff `n`
is odd; two toggles restore the whole array; and the only `toggled` line a
toggle command prints carries the index read and the value just stored. -/
theorem toggle_parity (tty : Bool) (k : Fin kThreadCount) (s : Shared) (n : Nat)
    (rest : List (Option Int)) (acts : List Act) (hrun : s.runFlag = true) :
    (1 ≤ workerId k ∧ workerId k ≤ 3)
    ∧ (∀ id : Int, 1 ≤ id → id ≤ 3 → ∃ j : Fin kThreadCount, workerId j = id)
    ∧ (menuLoop tty n ⟨s, toggleInput (workerId k) n rest, acts⟩).2 = false
    ∧ (menuLoop tty n ⟨s, toggleInput (workerId k) n rest, acts⟩).1.input = rest
    ∧ (menuLoop tty n ⟨s, toggleInput (workerId k) n rest, acts⟩).1.st.threadActive k
        = (if n % 2 = 1 then !s.threadActive k else s.threadActive k)
    ∧ (s.threadActive k = false →
        ((menuLoop tty n ⟨s, toggleInput (workerId k) n rest, acts⟩).1.st.threadActive k = true
          ↔ n % 2 = 1))
    ∧ (menuLoop tty 2 ⟨s, toggleInput (workerId k) 2 rest, acts⟩).1.st.threadActive
        = s.threadActive
    ∧ (∀ id b, Act.print (.toggled id b)
          ∈ (menuBody tty ⟨s, some 2 :: some (workerId k) :: rest, []⟩).1.acts
        ↔ (id = workerId k ∧ b = (menuBody tty
            ⟨s, some 2 :: some (workerId k) :: rest, []⟩).1.st.threadActive k)) := by
  obtain ⟨h1, h2, h3, _, _, _⟩ :=
    menuLoop_toggles tty k n rest ⟨s, toggleInput (workerId k) n rest, acts⟩ hrun rfl
  obtain ⟨_, _, g3, g4, _, _⟩ :=
    menuLoop_toggles tty k 2 rest ⟨s, toggleInput (workerId k) 2 rest, acts⟩ hrun rfl
  refine ⟨workerId_range k, workerId_onto, h1, h2, h3, ?_, ?_, ?_⟩
  · intro hf
    rw [h3, hf]
    by_cases hn : n % 2 = 1 <;> simp [hn]
  · funext j
    by_cases hj : j = k
    · subst hj; rw [g3]; simp
    · exact g4 j hj
  · intro id b
    rw [menuBody_toggle tty k s rest [] hrun]
    simp only [waitForEnter_st]
    cases tty <;> simp [waitForEnter, Ctl.act]

/-- Witness for `toggle_parity`: three toggles of worker 2 from the initial
state leave its flag set. -/
theorem toggle_parity_witness :
    Shared.initial.runFlag = true
    ∧ (menuLoop false 3 ⟨Shared.initial, toggleInput (workerId 1) 3 [], []⟩).1.st.threadActive 1
        = (if 3 % 2 = 1 then !Shared.initial.threadActive 1 else Shared.initial.threadActive 1) :=
  ⟨rfl, (toggle_parity false 1 Shared.initial 3 [] [] rfl).2.2.2.2.1⟩

/-! ## Set-interval command -/

theorem menuBody_interval (tty : Bool) (s : Shared) (v : Int)
    (rest : List (Option Int)) (acts : List Act) :
    menuBody tty ⟨s, some 3 :: some v :: rest, acts⟩ =
      if !s.runFlag then
        (⟨{ s with menuPause := false, messageIntervalMs := max v kMinIntervalMs }, rest,
          acts ++ [.storePause true, .print .menu, .readInt (some 3), .print .askInterval,
            .readInt (some v), .storeInterval (max v kMinIntervalMs),
            .print (.newInterval (max v kMinIntervalMs)), .storePause false]⟩, .leave)
      else
        (waitForEnter tty
          ⟨{ s with menuPause := true, messageIntervalMs := max v kMinIntervalMs }, rest,
            acts ++ [.storePause true, .print .menu, .readInt (some 3), .print .askInterval,
              .readInt (some v), .storeInterval (max v kMinIntervalMs),
              .print (.newInterval (max v kMinIntervalMs))]⟩, .again) := by
  rw [menuBody_some]
  cases hr : s.runFlag <;> simp [dispatch, Ctl.act, Ctl.readInt, Act.apply, hr]

/-- C2. For every integer `v` read by the set-interval command (menu choice
3), the value stored in `messageIntervalMs` is `max v 100`: the floor 100 when
`v < 100`, and `v` itself when `100 ≤ v`; the only `newInterval` line the
command prints carries exactly the stored value. -/
theorem set_interval_clamps (tty : Bool) (s : Shared) (v : Int)
    (rest : List (Option Int)) (acts : List Act) :
    (menuBody tty ⟨s, some 3 :: some v :: rest, acts⟩).1.st.messageIntervalMs = max v 100
    ∧ (v < 100 →
        (menuBody tty ⟨s, some 3 :: some v :: rest, acts⟩).1.st.messageIntervalMs = 100)
    ∧ (100 ≤ v →
        (menuBody tty ⟨s, some 3 :: some v :: rest, acts⟩).1.st.messageIntervalMs = v)
    ∧ (∀ x, Act.print (.newInterval x)
          ∈ (menuBody tty ⟨s, some 3 :: some v :: rest, []⟩).1.acts
        ↔ x = (menuBody tty ⟨s, some 3 :: some v :: rest, acts⟩).1.st.messageIntervalMs)
    ∧ (∀ x, Act.storeInterval x
          ∈ (menuBody tty ⟨s, some 3 :: some v :: rest, []⟩).1.acts
        ↔ x = max v 100) := by
  have hst : ∀ a, (menuBody tty ⟨s, some 3 :: some v :: rest, a⟩).1.st.messageIntervalMs
      = max v 100 := by
    intro a
    rw [menuBody_interval]
    cases hr : s.runFlag <;> simp [waitForEnter_st, kMinIntervalMs]
  refine ⟨hst acts, ?_, ?_, ?_, ?_⟩
  · intro h; rw [hst]; exact max_eq_right (le_of_lt h)
  · intro h; rw [hst]; exact max_eq_left h
  · intro x
    rw [hst, menuBody_interval]
    cases hr : s.runFlag <;> cases tty <;>
      simp [waitForEnter, Ctl.act, kMinIntervalMs]
  · intro x
    rw [menuBody_interval]
    cases hr : s.runFlag <;> cases tty <;>
      simp [waitForEnter, Ctl.act, kMinIntervalMs]

/-- Witness for `set_interval_clamps`: the request 50 stores 100 and the
request 250 stores 250. -/
theorem set_interval_clamps_witness :
    ((50 : Int) < 100 ∧
      (menuBody true ⟨Shared.initial, [some 3, some 50], []⟩).1.st.messageIntervalMs = 100)
    ∧ ((100 : Int) ≤ 250 ∧
      (menuBody true ⟨Shared.initial, [some 3, some 250], []⟩).1.st.messageIntervalMs = 250) :=
  ⟨⟨by decide, (set_interval_clamps true Shared.initial 50 [] []).2.1 (by decide)⟩,
   ⟨by decide, (set_interval_clamps true Shared.initial 250 [] []).2.2.1 (by decide)⟩⟩

/-! ## Exit command and shutdown -/

theorem menuBody_exit (tty : Bool) (s : Shared)
    (rest : List (Option Int)) (acts : List Act) :
    menuBody tty ⟨s, some 0 :: rest, acts⟩ =
      (⟨{ s with runFlag := false, menuPause := false }, rest,
        acts ++ [.storePause true, .print .menu, .readInt (some 0), .storeRun false,
          .storePause false]⟩, .leave) := by
  rw [menuBody_some]
  simp [dispatch, Ctl.act, Act.apply]

theorem wrun_succ_fst (k : Fin kThreadCount) (obs : Nat → Shared) (n t : Nat) (pc : WPc) :
    (wrun k obs (n + 1) t pc).1 = (wrun k obs n (t + 1) (threadFuncStep k (obs t) pc).1).1 := by
  simp [wrun]

theorem threadFuncStep_toward_return (k : Fin kThreadCount) (s : Shared) (pc : WPc)
    (hpc : pc ≠ .notStarted) (hrun : s.runFlag = false) :
    (threadFuncStep k s pc).1 ≠ .notStarted
    ∧ stepsToReturn (threadFuncStep k s pc).1 ≤ stepsToReturn pc - 1 := by
  cases pc <;> simp [threadFuncStep, hrun, stepsToReturn] at hpc ⊢ <;>
    split <;> simp [stepsToReturn]

/-- A started worker that sees a cleared run flag at each of its steps has
returned after at most seven steps. -/
theorem worker_returns (k : Fin kThreadCount) (obs : Nat → Shared) (t : Nat) (pc : WPc)
    (hpc : pc ≠ .notStarted) (hrun : ∀ j, (obs j).runFlag = false) :
    (wrun k obs 7 t pc).1 = .done := by
  have key : ∀ n t pc, pc ≠ WPc.notStarted → stepsToReturn pc ≤ n →
      (wrun k obs n t pc).1 = .done := by
    intro n
    induction n with
    | zero =>
      intro t pc h1 h2
      cases pc <;> simp [stepsToReturn, wrun] at h1 h2 ⊢
    | succ n ih =>
      intro t pc h1 h2
      rw [wrun_succ_fst]
      obtain ⟨g1, g2⟩ := threadFuncStep_toward_return k (obs t) pc h1 (hrun t)
      exact ih _ _ g1 (by omega)
  apply key _ _ _ hpc
  cases pc <;> simp [stepsToReturn]

theorem storeAll_apply (b : Bool) (c : Ctl) :
    storeAll b c = ⟨{ c.st with threadActive := fun _ => b }, c.input,
      c.acts ++ [.storeActive 0 b, .storeActive 1 b, .storeActive 2 b]⟩ := by
  have hf : (fun j : Fin kThreadCount =>
      if j = 2 then b else if j = 1 then b else if j = 0 then b else c.st.threadActive j)
      = fun _ => b := by
    funext j
    have hlt : j.val < 3 := j.isLt
    split_ifs with h2 h1 h0
    · rfl
    · rfl
    · rfl
    · exfalso
      have e2 : j.val ≠ 2 := fun e => h2 (Fin.ext e)
      have e1 : j.val ≠ 1 := fun e => h1 (Fin.ext e)
      have e0 : j.val ≠ 0 := fun e => h0 (Fin.ext e)
      omega
  simp [storeAll, Ctl.act, Act.apply, hf]

/-- C4. In every controller state whose run flag is set, menu choice 0
clears `runFlag`, leaves the menu loop without calling `waitForEnter`, and the
rest of `main` then stores `false` in every slot of `threadActive` before the
three joins, never touches `messageIntervalMs`, and returns 0. Every started
worker returns once it only sees the cleared run flag, so the joins complete. -/
theorem exit_command_shuts_down (tty : Bool) (s : Shared) (rest : List (Option Int))
    (acts : List Act) (fuel : Nat) (hrun : s.runFlag = true) :
    menuLoop tty (fuel + 1) ⟨s, some 0 :: rest, acts⟩ =
        (⟨{ s with runFlag := false, menuPause := false }, rest,
          acts ++ [.storePause true, .print .menu, .readInt (some 0), .storeRun false,
            .storePause false]⟩, true)
    ∧ Act.enterWait ∉ (menuLoop tty (fuel + 1) ⟨s, some 0 :: rest, []⟩).1.acts
    ∧ mainFromLoop tty (fuel + 1) ⟨s, some 0 :: rest, acts⟩ =
        some (⟨{ runFlag := false, menuPause := false,
                 messageIntervalMs := s.messageIntervalMs, threadActive := fun _ => false },
          rest,
          acts ++ [.storePause true, .print .menu, .readInt (some 0), .storeRun false,
            .storePause false, .storeActive 0 false, .storeActive 1 false,
            .storeActive 2 false, .join 0, .join 1, .join 2, .print .programFinished]⟩, 0)
    ∧ (∀ (k : Fin kThreadCount) (obs : Nat → Shared) (t : Nat) (pc : WPc),
        pc ≠ .notStarted → (∀ j, (obs j).runFlag = false) → (wrun k obs 7 t pc).1 = .done) := by
  have hloop : ∀ a, menuLoop tty (fuel + 1) ⟨s, some 0 :: rest, a⟩ =
        (⟨{ s with runFlag := false, menuPause := false }, rest,
          a ++ [.storePause true, .print .menu, .readInt (some 0), .storeRun false,
            .storePause false]⟩, true) :=
    fun a => menuLoop_leave tty fuel _ _ hrun (menuBody_exit tty s rest a)
  refine ⟨hloop acts, ?_, ?_, fun k obs t pc h1 h2 => worker_returns k obs t pc h1 h2⟩
  · rw [hloop]; simp
  · simp only [mainFromLoop, hloop, shutdown, storeAll_apply, printLocked, Ctl.act, Act.apply]
    simp only [List.append_assoc, List.singleton_append, List.cons_append, List.nil_append]

/-- Witness for `exit_command_shuts_down`: choice 0 given at the first prompt. -/
theorem exit_command_shuts_down_witness :
    Shared.initial.runFlag = true
    ∧ mainFromLoop true 1 ⟨Shared.initial, [some 0], []⟩ =
        some (⟨{ runFlag := false, menuPause := false,
                 messageIntervalMs := Shared.initial.messageIntervalMs,
                 threadActive := fun _ => false },
          [],
          [] ++ [.storePause true, .print .menu, .readInt (some 0), .storeRun false,
            .storePause false, .storeActive 0 false, .storeActive 1 false,
            .storeActive 2 false, .join 0, .join 1, .join 2, .print .programFinished]⟩, 0) :=
  ⟨rfl, (exit_command_shuts_down true Shared.initial [] [] 0 rfl).2.2.1⟩

/-! ## Out-of-range and malformed input -/

theorem menuBody_toggle_invalid (tty : Bool) (id : Int) (h : id < 1 ∨ 3 < id) (s : Shared)
    (rest : List (Option Int)) (acts : List Act) (hrun : s.runFlag = true) :
    menuBody tty ⟨s, some 2 :: some id :: rest, acts⟩ =
      (waitForEnter tty ⟨{ s with menuPause := true }, rest,
        acts ++ [.storePause true, .print .menu, .readInt (some 2), .print .askThread,
          .readInt (some id), .print .noSuchThread]⟩, .again) := by
  rw [menuBody_some, dispatch_toggle_invalid id h]
  simp [hrun]

/-- C5. In a state whose run flag is set, the toggle command (menu choice 2)
given an index `id` outside 1..3 stores nothing: it prints the invalid-target
line and calls `waitForEnter`, and `threadActive`, `runFlag` and
`messageIntervalMs` are as before. For every `id`, the command changes
`threadActive` iff `1 ≤ id ≤ 3`, every slot that does not belong to worker
`id` keeps its value, and `runFlag` and `messageIntervalMs` are kept. -/
theorem toggle_out_of_range (tty : Bool) (s : Shared) (id : Int)
    (rest : List (Option Int)) (acts : List Act) (hrun : s.runFlag = true) :
    (id < 1 ∨ 3 < id →
      menuBody tty ⟨s, some 2 :: some id :: rest, acts⟩ =
        (waitForEnter tty ⟨{ s with menuPause := true }, rest,
          acts ++ [.storePause true, .print .menu, .readInt (some 2), .print .askThread,
            .readInt (some id), .print .noSuchThread]⟩, .again)
      ∧ (menuBody tty ⟨s, some 2 :: some id :: rest, acts⟩).1.st.threadActive = s.threadActive
      ∧ Act.print .noSuchThread ∈ (menuBody tty ⟨s, some 2 :: some id :: rest, []⟩).1.acts
      ∧ Act.enterWait ∈ (menuBody tty ⟨s, some 2 :: some id :: rest, []⟩).1.acts
      ∧ (∀ k b, Act.storeActive k b ∉ (menuBody tty ⟨s, some 2 :: some id :: rest, []⟩).1.acts))
    ∧ ((menuBody tty ⟨s, some 2 :: some id :: rest, acts⟩).1.st.threadActive ≠ s.threadActive
        ↔ 1 ≤ id ∧ id ≤ 3)
    ∧ (∀ j, workerId j ≠ id →
        (menuBody tty ⟨s, some 2 :: some id :: rest, acts⟩).1.st.threadActive j = s.threadActive j)
    ∧ (menuBody tty ⟨s, some 2 :: some id :: rest, acts⟩).1.st.runFlag = s.runFlag
    ∧ (menuBody tty ⟨s, some 2 :: some id :: rest, acts⟩).1.st.messageIntervalMs
        = s.messageIntervalMs := by
  by_cases hid : id < 1 ∨ 3 < id
  · have hb := fun a => menuBody_toggle_invalid tty id hid s rest a hrun
    have hne : ¬ (1 ≤ id ∧ id ≤ 3) := by omega
    refine ⟨fun _ => ⟨hb acts, ?_, ?_, ?_, ?_⟩, ?_, ?_, ?_, ?_⟩
    · rw [hb, waitForEnter_st]
    · rw [hb]; cases tty <;> simp [waitForEnter, Ctl.act]
    · rw [hb]; exact enterWait_mem_waitForEnter _ _
    · intro k b; rw [hb]; cases tty <;> simp [waitForEnter, Ctl.act]
    · rw [hb, waitForEnter_st]; simp [hne]
    · intro j _; rw [hb, waitForEnter_st]
    · rw [hb, waitForEnter_st]
    · rw [hb, waitForEnter_st]
  · have hin : 1 ≤ id ∧ id ≤ 3 := by omega
    obtain ⟨k, rfl⟩ := workerId_onto id hin.1 hin.2
    have hb := menuBody_toggle tty k s rest acts hrun
    refine ⟨fun h => absurd h hid, ?_, ?_, ?_, ?_⟩
    · rw [hb, waitForEnter_st]
      simp only [hin, and_self, iff_true]
      intro hEq
      have := congrFun hEq k
      simp at this
    · intro j hj
      have hjk : j ≠ k := fun e => hj (by rw [e])
      rw [hb, waitForEnter_st]; simp [hjk]
    · rw [hb, waitForEnter_st]
    · rw [hb, waitForEnter_st]

/-- Witness for `toggle_out_of_range`: index 7 at the initial state. -/
theorem toggle_out_of_range_witness :
    Shared.initial.runFlag = true ∧ ((7 : Int) < 1 ∨ (3 : Int) < 7)
    ∧ (menuBody true ⟨Shared.initial, [some 2, some 7], []⟩).1.st.threadActive
        = Shared.initial.threadActive :=
  ⟨rfl, by decide,
    ((toggle_out_of_range true Shared.initial 7 [] [] rfl).1 (by decide)).2.1⟩

theorem menuBody_none (tty : Bool) (s : Shared)
    (rest : List (Option Int)) (acts : List Act) :
    menuBody tty ⟨s, none :: rest, acts⟩ =
      (⟨{ s with menuPause := false }, rest,
        acts ++ [.storePause true, .print .menu, .readInt none, .discardLine,
          .print .badChoice, .storePause false]⟩, .again) := by
  simp [menuBody, Ctl.readInt, Ctl.act, Act.apply, printLocked]

theorem menuBody_eof (tty : Bool) (s : Shared) (acts : List Act) :
    menuBody tty ⟨s, [], acts⟩ =
      (⟨{ s with menuPause := false }, [],
        acts ++ [.storePause true, .print .menu, .readInt none, .discardLine,
          .print .badChoice, .storePause false]⟩, .again) := by
  simp [menuBody, Ctl.readInt, Ctl.act, Act.apply, printLocked]

theorem dispatch_frame (choice : Int) (s : Shared) (i : List (Option Int)) (a : List Act) :
    dispatch choice ⟨s, i, a⟩ =
      (⟨(dispatch choice ⟨s, i, []⟩).1.st, (dispatch choice ⟨s, i, []⟩).1.input,
        a ++ (dispatch choice ⟨s, i, []⟩).1.acts⟩, (dispatch choice ⟨s, i, []⟩).2) := by
  unfold dispatch
  simp only [Ctl.act, Ctl.readInt, printLocked, showStatus, storeAll]
  split_ifs <;> (try rcases i with _ | ⟨_ | id, rest⟩) <;> simp
  split_ifs <;> simp

theorem menuBody_starts_with_menu (tty : Bool) (c : Ctl) :
    ∃ tail, (menuBody tty c).1.acts = c.acts ++ Act.storePause true :: Act.print .menu :: tail := by
  obtain ⟨s, i, a⟩ := c
  rcases i with _ | ⟨_ | choice, rest⟩
  · exact ⟨_, by rw [menuBody_eof]⟩
  · exact ⟨_, by rw [menuBody_none]⟩
  · rw [menuBody_some, dispatch_frame]
    simp only
    split_ifs
    · exact ⟨_, by simp [Ctl.act]; rfl⟩
    · exact ⟨_, by rw [waitForEnter_acts]; simp; rfl⟩
    · exact ⟨_, by simp [Ctl.act]; rfl⟩

/-- C6. When the extraction at the menu prompt fails (a non-integer token, or
end of input), the iteration discards the line, prints the error line, stores
`false` in `menuPause` and goes back to the loop condition: `waitForEnter` is
not called, `runFlag`, `messageIntervalMs` and `threadActive` are not written,
the loop is still running, and the next iteration starts by storing `true` in
`menuPause` and printing the menu. -/
theorem bad_menu_choice (tty : Bool) (s : Shared) (rest : List (Option Int))
    (acts : List Act) (fuel : Nat) (hrun : s.runFlag = true) :
    menuBody tty ⟨s, none :: rest, acts⟩ =
        (⟨{ s with menuPause := false }, rest,
          acts ++ [.storePause true, .print .menu, .readInt none, .discardLine,
            .print .badChoice, .storePause false]⟩, .again)
    ∧ menuBody tty ⟨s, [], acts⟩ =
        (⟨{ s with menuPause := false }, [],
          acts ++ [.storePause true, .print .menu, .readInt none, .discardLine,
            .print .badChoice, .storePause false]⟩, .again)
    ∧ Act.enterWait ∉ (menuBody tty ⟨s, none :: rest, []⟩).1.acts
    ∧ Act.enterWait ∉ (menuBody tty ⟨s, [], []⟩).1.acts
    ∧ menuLoop tty 1 ⟨s, none :: rest, acts⟩ =
        (⟨{ s with menuPause := false }, rest,
          acts ++ [.storePause true, .print .menu, .readInt none, .discardLine,
            .print .badChoice, .storePause false]⟩, false)
    ∧ menuLoop tty (fuel + 1) ⟨s, none :: rest, acts⟩ =
        menuLoop tty fuel ⟨{ s with menuPause := false }, rest,
          acts ++ [.storePause true, .print .menu, .readInt none, .discardLine,
            .print .badChoice, .storePause false]⟩
    ∧ (∀ c : Ctl, ∃ tail,
        (menuBody tty c).1.acts = c.acts ++ Act.storePause true :: Act.print .menu :: tail) := by
  refine ⟨menuBody_none tty s rest acts, menuBody_eof tty s acts, ?_, ?_, ?_, ?_,
    menuBody_starts_with_menu tty⟩
  · rw [menuBody_none]; simp
  · rw [menuBody_eof]; simp
  · rw [menuLoop_again tty 0 _ _ hrun (menuBody_none tty s rest acts)]; rfl
  · exact menuLoop_again tty fuel _ _ hrun (menuBody_none tty s rest acts)

/-- Witness for `bad_menu_choice`: a failed extraction at the first prompt. -/
theorem bad_menu_choice_witness :
    Shared.initial.runFlag = true
    ∧ menuLoop false 1 ⟨Shared.initial, [none, some 1], []⟩ =
        (⟨{ Shared.initial with menuPause := false }, [some 1],
          [] ++ [.storePause true, .print .menu, .readInt none, .discardLine,
            .print .badChoice, .storePause false]⟩, false) :=
  ⟨rfl, (bad_menu_choice false Shared.initial [some 1] [] 0 rfl).2.2.2.2.1⟩

theorem menuBody_bad_index (tty : Bool) (s : Shared)
    (rest : List (Option Int)) (acts : List Act) (hrun : s.runFlag = true) :
    menuBody tty ⟨s, some 2 :: none :: rest, acts⟩ =
      (waitForEnter tty ⟨{ s with menuPause := true }, rest,
        acts ++ [.storePause true, .print .menu, .readInt (some 2), .print .askThread,
          .readInt none, .discardLine, .print .badThreadInput]⟩, .again) := by
  rw [menuBody_some]
  simp [dispatch, Ctl.act, Ctl.readInt, Act.apply, printLocked, hrun]

theorem menuBody_bad_interval (tty : Bool) (s : Shared)
    (rest : List (Option Int)) (acts : List Act) (hrun : s.runFlag = true) :
    menuBody tty ⟨s, some 3 :: none :: rest, acts⟩ =
      (waitForEnter tty ⟨{ s with menuPause := true }, rest,
        acts ++ [.storePause true, .print .menu, .readInt (some 3), .print .askInterval,
          .readInt none, .discardLine, .print .badIntervalInput]⟩, .again) := by
  rw [menuBody_some]
  simp [dispatch, Ctl.act, Ctl.readInt, Act.apply, printLocked, hrun]

/-- C7, as stated, fails: after a failed extraction at the worker-index
prompt of choice 2, and likewise at the interval prompt of choice 3, the
controller calls `waitForEnter` before it returns to the menu. -/
theorem bad_sub_prompt_input_waits :
    Act.enterWait ∈ (menuBody true ⟨Shared.initial, [some 2, none], []⟩).1.acts
    ∧ Act.enterWait ∈ (menuBody true ⟨Shared.initial, [some 3, none], []⟩).1.acts
    ∧ Act.enterWait ∈ (menuBody false ⟨Shared.initial, [some 2, none], []⟩).1.acts
    ∧ Act.enterWait ∈ (menuBody false ⟨Shared.initial, [some 3, none], []⟩).1.acts := by
  decide

/-- C7, amended. A failed extraction is recovered locally at each of the three
prompts: the line is discarded, an error line is printed, and `threadActive`,
`messageIntervalMs` and `runFlag` are not written. At the menu prompt the
controller goes back to the menu without calling `waitForEnter`; at the
worker-index prompt of choice 2 and at the interval prompt of choice 3 it
calls `waitForEnter` and returns to the menu after it. -/
theorem malformed_input_recovery (tty : Bool) (s : Shared) (rest : List (Option Int))
    (acts : List Act) (hrun : s.runFlag = true) :
    (menuBody tty ⟨s, none :: rest, acts⟩ =
        (⟨{ s with menuPause := false }, rest,
          acts ++ [.storePause true, .print .menu, .readInt none, .discardLine,
            .print .badChoice, .storePause false]⟩, .again)
      ∧ Act.enterWait ∉ (menuBody tty ⟨s, none :: rest, []⟩).1.acts)
    ∧ (menuBody tty ⟨s, some 2 :: none :: rest, acts⟩ =
        (waitForEnter tty ⟨{ s with menuPause := true }, rest,
          acts ++ [.storePause true, .print .menu, .readInt (some 2), .print .askThread,
            .readInt none, .discardLine, .print .badThreadInput]⟩, .again)
      ∧ (menuBody tty ⟨s, some 2 :: none :: rest, acts⟩).1.st = { s with menuPause := true }
      ∧ Act.enterWait ∈ (menuBody tty ⟨s, some 2 :: none :: rest, []⟩).1.acts)
    ∧ (menuBody tty ⟨s, some 3 :: none :: rest, acts⟩ =
        (waitForEnter tty ⟨{ s with menuPause := true }, rest,
          acts ++ [.storePause true, .print .menu, .readInt (some 3), .print .askInterval,
            .readInt none, .discardLine, .print .badIntervalInput]⟩, .again)
      ∧ (menuBody tty ⟨s, some 3 :: none :: rest, acts⟩).1.st = { s with menuPause := true }
      ∧ Act.enterWait ∈ (menuBody tty ⟨s, some 3 :: none :: rest, []⟩).1.acts) := by
  refine ⟨⟨menuBody_none tty s rest acts, ?_⟩,
    ⟨menuBody_bad_index tty s rest acts hrun, ?_, ?_⟩,
    ⟨menuBody_bad_interval tty s rest acts hrun, ?_, ?_⟩⟩
  · rw [menuBody_none]; simp
  · rw [menuBody_bad_index tty s rest acts hrun, waitForEnter_st]
  · rw [menuBody_bad_index tty s rest [] hrun]; exact enterWait_mem_waitForEnter _ _
  · rw [menuBody_bad_interval tty s rest acts hrun, waitForEnter_st]
  · rw [menuBody_bad_interval tty s rest [] hrun]; exact enterWait_mem_waitForEnter _ _

/-- Witness for `malformed_input_recovery`: a failed extraction at the
worker-index prompt, from the initial state. -/
theorem malformed_input_recovery_witness :
    Shared.initial.runFlag = true
    ∧ (menuBody true ⟨Shared.initial, [some 2, none], []⟩).1.st
        = { Shared.initial with menuPause := true } :=
  ⟨rfl, (malformed_input_recovery true Shared.initial [] [] rfl).2.1.2.1⟩

/-! ## Worker: the sleep loop of lines 53–57 -/

theorem runToHead_innerRun_exit (k : Fin kThreadCount) (obs : Nat → Shared) (fuel t : Nat)
    (i e : Int) (h : ¬ (e < i ∧ (obs t).runFlag = true)) :
    runToHead k obs (fuel + 1) t (.innerRun i e) = some (.loopHead, []) := by
  simp [runToHead, threadFuncStep, h]

theorem runToHead_innerActive_exit (k : Fin kThreadCount) (obs : Nat → Shared) (fuel t : Nat)
    (i e : Int) (h1 : e < i ∧ (obs t).runFlag = true) (h2 : (obs (t + 1)).threadActive k = false) :
    runToHead k obs (fuel + 2) t (.innerRun i e) = some (.loopHead, []) := by
  simp [runToHead, threadFuncStep, h1, h2]

theorem runToHead_innerPause_exit (k : Fin kThreadCount) (obs : Nat → Shared) (fuel t : Nat)
    (i e : Int) (h1 : e < i ∧ (obs t).runFlag = true) (h2 : (obs (t + 1)).threadActive k = true)
    (h3 : (obs (t + 2)).menuPause = true) :
    runToHead k obs (fuel + 3) t (.innerRun i e) = some (.loopHead, []) := by
  simp [runToHead, threadFuncStep, h1, h2, h3]

theorem runToHead_inner_round (k : Fin kThreadCount) (obs : Nat → Shared) (fuel t : Nat)
    (i e : Int) (h1 : e < i ∧ (obs t).runFlag = true) (h2 : (obs (t + 1)).threadActive k = true)
    (h3 : (obs (t + 2)).menuPause = false) :
    runToHead k obs (fuel + 3) t (.innerRun i e) =
      (runToHead k obs fuel (t + 3) (.innerRun i (e + min 100 (i - e)))).map
        fun q => (q.1, WEv.nap (min 100 (i - e)) :: q.2) := by
  simp [runToHead, threadFuncStep, h1, h2, h3, Option.map_map, Function.comp_def]

theorem runToHead_mono (k : Fin kThreadCount) (obs : Nat → Shared) (fuel : Nat) :
    ∀ (t : Nat) (pc : WPc) (r : WPc × List WEv),
      runToHead k obs fuel t pc = some r → runToHead k obs (fuel + 1) t pc = some r := by
  induction fuel with
  | zero => intro t pc r h; simp [runToHead] at h
  | succ n ih =>
    intro t pc r h
    rw [runToHead] at h ⊢
    split_ifs at h ⊢ with hc
    · exact h
    · cases hq : runToHead k obs n (t + 1) (threadFuncStep k (obs t) pc).1 with
      | none => simp [hq] at h
      | some q => rw [ih _ _ _ hq]; simp only [hq] at h; exact h

theorem runToHead_le (k : Fin kThreadCount) (obs : Nat → Shared) (fuel fuel1 t : Nat)
    (pc : WPc) (r : WPc × List WEv) (hle : fuel ≤ fuel1)
    (h : runToHead k obs fuel t pc = some r) : runToHead k obs fuel1 t pc = some r := by
  induction hle with
  | refl => exact h
  | step _ ih => exact runToHead_mono k obs _ t pc r ih

theorem inner_terminates (k : Fin kThreadCount) (obs : Nat → Shared) :
    ∀ (r : Nat) (i e : Int) (t : Nat), i - e ≤ 100 * (r : Int) →
      ∃ naps : List Int, naps.length ≤ r ∧ (∀ x ∈ naps, 1 ≤ x ∧ x ≤ 100)
        ∧ naps.sum ≤ max (i - e) 0
        ∧ runToHead k obs (3 * r + 1) t (.innerRun i e) = some (.loopHead, naps.map .nap) := by
  intro r
  induction r with
  | zero =>
    intro i e t h
    refine ⟨[], le_refl _, by simp, by simp, ?_⟩
    exact runToHead_innerRun_exit k obs 0 t i e (by omega)
  | succ r ih =>
    intro i e t h
    by_cases h1 : e < i ∧ (obs t).runFlag = true
    · cases h2 : (obs (t + 1)).threadActive k with
      | false =>
        exact ⟨[], Nat.zero_le _, by simp, by simp,
          runToHead_innerActive_exit k obs (3 * r + 2) t i e h1 h2⟩
      | true =>
        cases h3 : (obs (t + 2)).menuPause with
        | true =>
          exact ⟨[], Nat.zero_le _, by simp, by simp,
            runToHead_innerPause_exit k obs (3 * r + 1) t i e h1 h2 h3⟩
        | false =>
          have hstep : 1 ≤ min 100 (i - e) ∧ min 100 (i - e) ≤ 100 := by
            constructor
            · exact le_min (by norm_num) (by omega)
            · exact min_le_left _ _
          have hrem : i - (e + min 100 (i - e)) ≤ 100 * (r : Int) := by
            rcases le_total 100 (i - e) with hc | hc
            · rw [min_eq_left hc]; push_cast at h; omega
            · rw [min_eq_right hc]; omega
          obtain ⟨naps, hl, hb, hsum, hrun⟩ := ih i (e + min 100 (i - e)) (t + 3) hrem
          refine ⟨min 100 (i - e) :: naps, by simp; omega, ?_, ?_, ?_⟩
          · intro x hx
            rcases List.mem_cons.mp hx with rfl | hx
            · exact hstep
            · exact hb x hx
          · have hnn : 0 ≤ i - (e + min 100 (i - e)) := by
              have := min_le_right 100 (i - e); omega
            rw [max_eq_left hnn] at hsum
            rw [List.sum_cons, max_eq_left (by omega)]
            omega
          · have := runToHead_inner_round k obs (3 * r + 1) t i e h1 h2 h3
            rw [show 3 * (r + 1) + 1 = 3 * r + 1 + 3 by ring, this, hrun]
            rfl
    · exact ⟨[], Nat.zero_le _, by simp, by simp,
        runToHead_innerRun_exit k obs (3 * (r + 1)) t i e h1⟩

theorem inner_steady (k : Fin kThreadCount) (obs : Nat → Shared)
    (hs : ∀ j, (obs j).runFlag = true ∧ (obs j).threadActive k = true
      ∧ (obs j).menuPause = false) :
    ∀ (r : Nat) (i e : Int) (t : Nat), i - e ≤ 100 * (r : Int) →
      ∃ naps : List Int,
        runToHead k obs (3 * r + 1) t (.innerRun i e) = some (.loopHead, naps.map .nap)
        ∧ (naps.length : Int) = max ((i - e + 99) / 100) 0
        ∧ naps.sum = max (i - e) 0
        ∧ (∀ j (hj : j < naps.length), naps[j] = min 100 (i - (e + (naps.take j).sum))) := by
  intro r
  induction r with
  | zero =>
    intro i e t h
    refine ⟨[], runToHead_innerRun_exit k obs 0 t i e (by omega), ?_, ?_, by simp⟩
    · have : (i - e + 99) / 100 ≤ 0 := by omega
      simp [max_eq_right this]
    · simp; omega
  | succ r ih =>
    intro i e t h
    by_cases hlt : e < i
    · have h1 : e < i ∧ (obs t).runFlag = true := ⟨hlt, (hs t).1⟩
      have h2 := (hs (t + 1)).2.1
      have h3 := (hs (t + 2)).2.2
      have hmin : min 100 (i - e) = if 100 ≤ i - e then 100 else i - e := by
        split_ifs with hc
        · exact min_eq_left hc
        · exact min_eq_right (by omega)
      have hrem : i - (e + min 100 (i - e)) ≤ 100 * (r : Int) := by
        rw [hmin]; push_cast at h; split_ifs <;> omega
      obtain ⟨naps, hrun, hlen, hsum, hidx⟩ := ih i (e + min 100 (i - e)) (t + 3) hrem
      refine ⟨min 100 (i - e) :: naps, ?_, ?_, ?_, ?_⟩
      · have := runToHead_inner_round k obs (3 * r + 1) t i e h1 h2 h3
        rw [show 3 * (r + 1) + 1 = 3 * r + 1 + 3 by ring, this, hrun]
        rfl
      · rw [List.length_cons]; push_cast; rw [hlen, hmin]
        split_ifs with hc
        · rw [max_def, max_def]; split_ifs <;> omega
        · rw [max_def, max_def]; split_ifs <;> omega
      · rw [List.sum_cons, hsum, hmin]
        split_ifs with hc
        · rw [max_def, max_def]; split_ifs <;> omega
        · rw [max_def, max_def]; split_ifs <;> omega
      · intro j hj
        cases j with
        | zero => simp
        | succ j =>
          have hj1 : j < naps.length := by simpa using hj
          simp only [List.getElem_cons_succ, List.take_succ_cons, List.sum_cons]
          rw [hidx j hj1, add_assoc]
    · refine ⟨[], runToHead_innerRun_exit k obs _ t i e (by tauto), ?_, ?_, by simp⟩
      · have : (i - e + 99) / 100 ≤ 0 := by omega
        simp [max_eq_right this]
      · simp; omega

theorem runToHead_loadInterval (k : Fin kThreadCount) (obs : Nat → Shared) (fuel t : Nat) :
    runToHead k obs (fuel + 1) t .loadInterval
      = runToHead k obs fuel (t + 1) (.innerRun (obs t).messageIntervalMs 0) := by
  simp [runToHead, threadFuncStep]

theorem inner_flags_only (k : Fin kThreadCount) (obs obs2 : Nat → Shared)
    (hf : ∀ j, (obs2 j).runFlag = (obs j).runFlag ∧ (obs2 j).menuPause = (obs j).menuPause
      ∧ (obs2 j).threadActive = (obs j).threadActive) :
    ∀ (fuel t : Nat) (pc : WPc),
      (∃ i e, pc = .innerRun i e ∨ pc = .innerActive i e ∨ pc = .innerPause i e) →
      runToHead k obs2 fuel t pc = runToHead k obs fuel t pc := by
  intro fuel
  induction fuel with
  | zero => intro t pc _; rfl
  | succ n ih =>
    intro t pc hpc
    obtain ⟨h1, h2, h3⟩ := hf t
    have hw : threadFuncStep k (obs2 t) pc = threadFuncStep k (obs t) pc := by
      obtain ⟨i, e, rfl | rfl | rfl⟩ := hpc <;> simp [threadFuncStep, h1, h2, h3]
    have hnext : (threadFuncStep k (obs t) pc).1 = .loopHead
        ∨ ∃ i e, (threadFuncStep k (obs t) pc).1 = .innerRun i e
          ∨ (threadFuncStep k (obs t) pc).1 = .innerActive i e
          ∨ (threadFuncStep k (obs t) pc).1 = .innerPause i e := by
      obtain ⟨i, e, rfl | rfl | rfl⟩ := hpc <;> simp only [threadFuncStep] <;> split_ifs <;> simp
    rw [runToHead, runToHead, hw]
    rcases hnext with hn | hn
    · simp [hn]
    · rw [ih (t + 1) _ hn]

theorem inner_interrupted (k : Fin kThreadCount) (obs : Nat → Shared) (i : Int) :
    ∀ (m : Nat) (e : Int) (t : Nat), e + 100 * (m : Int) < i →
      (∀ j, j < m → (obs (t + 3 * j)).runFlag = true
        ∧ (obs (t + 3 * j + 1)).threadActive k = true
        ∧ (obs (t + 3 * j + 2)).menuPause = false) →
      ¬ ((obs (t + 3 * m)).runFlag = true
        ∧ (obs (t + 3 * m + 1)).threadActive k = true
        ∧ (obs (t + 3 * m + 2)).menuPause = false) →
      runToHead k obs (3 * m + 3) t (.innerRun i e)
        = some (.loopHead, (List.replicate m (100 : Int)).map .nap) := by
  intro m
  induction m with
  | zero =>
    intro e t he _ hbad
    simp only [Nat.mul_zero, Nat.add_zero] at hbad
    have hlt : e < i := by simpa using he
    cases h1 : (obs t).runFlag with
    | false =>
      exact runToHead_innerRun_exit k obs 2 t i e (by simp [h1])
    | true =>
      cases h2 : (obs (t + 1)).threadActive k with
      | false => exact runToHead_innerActive_exit k obs 1 t i e ⟨hlt, h1⟩ h2
      | true =>
        cases h3 : (obs (t + 2)).menuPause with
        | true => exact runToHead_innerPause_exit k obs 0 t i e ⟨hlt, h1⟩ h2 h3
        | false => exact absurd ⟨h1, h2, h3⟩ hbad
  | succ m ih =>
    intro e t he hgood hbad
    push_cast at he
    obtain ⟨h1, h2, h3⟩ := hgood 0 (Nat.succ_pos m)
    simp only [Nat.mul_zero, Nat.add_zero] at h1 h2 h3
    have hlt : e < i := by omega
    have hmin : min 100 (i - e) = 100 := min_eq_left (by omega)
    have hround := runToHead_inner_round k obs (3 * m + 3) t i e ⟨hlt, h1⟩ h2 h3
    rw [hmin] at hround
    have hrec := ih (e + 100) (t + 3) (by omega)
      (fun j hj => by
        have := hgood (j + 1) (by omega)
        rw [show t + 3 * (j + 1) = t + 3 + 3 * j by ring] at this
        exact this)
      (by
        rw [show t + 3 * (m + 1) = t + 3 + 3 * m by ring] at hbad
        exact hbad)
    rw [show 3 * (m + 1) + 3 = 3 * m + 3 + 3 by ring, hround, hrec]
    rfl

/-- C10. The sleep loop entered with the interval just loaded (line 51).
(1) Whatever the flags do, the loop is left, back to the loop condition of
line 35, after finitely many steps; every sleep lies in 1..100 and the sleeps
sum to at most the interval. (2) While `runFlag` and `threadActive[k]` stay
set and `menuPause` stays clear, it sleeps exactly `ceil (interval / 100)`
times for a positive interval and not at all otherwise, each sleep is
`min 100 (interval - elapsed)`, and the sleeps sum to the interval.
(3) A cleared `runFlag`, a cleared `threadActive[k]` or a set `menuPause`
ends the loop at the check that reads it, a check sleeps only after the third
test and then once, for `min 100 (interval - elapsed)`. (4) The loop never
reads `messageIntervalMs`: two runs that see the same three flags and loaded
the same interval coincide. (5) Each round of the loop performs the three
tests in the order of line 53: `elapsed < interval` and `runFlag`, then
`threadActive[k]`, then `menuPause`. (6) A round started at step `t` reads
`runFlag` at `t`, `threadActive[k]` at `t + 1` and `menuPause` at `t + 2`; the
first test that fails sends the worker back to line 35 with no further sleep,
and when all three pass the worker sleeps once and starts the next round.
(7) If the first `m` rounds pass their tests, `100 * m` is below the interval
and some test of round `m` fails, the loop ends after exactly `m` sleeps of
100 ms: after a flag has changed the worker finishes at most the sleep in
progress before it is back at line 35. -/
theorem sleep_loop (k : Fin kThreadCount) (interval : Int) :
    (∀ (obs : Nat → Shared) (t : Nat), (obs t).messageIntervalMs = interval →
      ∃ (fuel0 : Nat) (naps : List Int),
        (∀ fuel, fuel0 ≤ fuel →
          runToHead k obs fuel t .loadInterval = some (.loopHead, naps.map .nap))
        ∧ (∀ x ∈ naps, 1 ≤ x ∧ x ≤ 100)
        ∧ naps.sum ≤ max interval 0)
    ∧ (∀ (obs : Nat → Shared) (t : Nat), (obs t).messageIntervalMs = interval →
        (∀ j, (obs j).runFlag = true ∧ (obs j).threadActive k = true
          ∧ (obs j).menuPause = false) →
        ∃ (fuel0 : Nat) (naps : List Int),
          (∀ fuel, fuel0 ≤ fuel →
            runToHead k obs fuel t .loadInterval = some (.loopHead, naps.map .nap))
          ∧ (0 < interval → (naps.length : Int) = (interval + 99) / 100
              ∧ 100 * ((naps.length : Int) - 1) < interval
              ∧ interval ≤ 100 * (naps.length : Int))
          ∧ (interval ≤ 0 → naps = [])
          ∧ (∀ j (hj : j < naps.length),
              naps[j] = min 100 (interval - (naps.take j).sum)
              ∧ 1 ≤ naps[j] ∧ naps[j] ≤ 100)
          ∧ (0 ≤ interval → naps.sum = interval))
    ∧ (∀ (s : Shared) (e : Int),
        (s.runFlag = false → threadFuncStep k s (.innerRun interval e) = (.loopHead, none))
        ∧ (s.threadActive k = false → threadFuncStep k s (.innerActive interval e) = (.loopHead, none))
        ∧ (s.menuPause = true → threadFuncStep k s (.innerPause interval e) = (.loopHead, none))
        ∧ (threadFuncStep k s (.innerRun interval e)).2 = none
        ∧ (threadFuncStep k s (.innerActive interval e)).2 = none
        ∧ (s.menuPause = false → threadFuncStep k s (.innerPause interval e)
            = (.innerRun interval (e + min 100 (interval - e)),
                some (.nap (min 100 (interval - e))))))
    ∧ (∀ (obs obs2 : Nat → Shared) (fuel t : Nat),
        (obs t).messageIntervalMs = interval → (obs2 t).messageIntervalMs = interval →
        (∀ j, (obs2 j).runFlag = (obs j).runFlag ∧ (obs2 j).menuPause = (obs j).menuPause
          ∧ (obs2 j).threadActive = (obs j).threadActive) →
        runToHead k obs2 fuel t .loadInterval = runToHead k obs fuel t .loadInterval)
    ∧ (∀ (s : Shared) (e : Int),
        (e < interval → s.runFlag = true →
          threadFuncStep k s (.innerRun interval e) = (.innerActive interval e, none))
        ∧ (¬ e < interval →
          threadFuncStep k s (.innerRun interval e) = (.loopHead, none))
        ∧ (s.threadActive k = true →
          threadFuncStep k s (.innerActive interval e) = (.innerPause interval e, none)))
    ∧ (∀ (obs : Nat → Shared) (fuel t : Nat) (e : Int),
        (¬ (e < interval ∧ (obs t).runFlag = true) →
          runToHead k obs (fuel + 1) t (.innerRun interval e) = some (.loopHead, []))
        ∧ (e < interval → (obs t).runFlag = true → (obs (t + 1)).threadActive k = false →
          runToHead k obs (fuel + 2) t (.innerRun interval e) = some (.loopHead, []))
        ∧ (e < interval → (obs t).runFlag = true → (obs (t + 1)).threadActive k = true →
          (obs (t + 2)).menuPause = true →
          runToHead k obs (fuel + 3) t (.innerRun interval e) = some (.loopHead, []))
        ∧ (e < interval → (obs t).runFlag = true → (obs (t + 1)).threadActive k = true →
          (obs (t + 2)).menuPause = false →
          runToHead k obs (fuel + 3) t (.innerRun interval e)
            = (runToHead k obs fuel (t + 3)
                (.innerRun interval (e + min 100 (interval - e)))).map
                fun q => (q.1, WEv.nap (min 100 (interval - e)) :: q.2)))
    ∧ (∀ (obs : Nat → Shared) (t m : Nat), (obs t).messageIntervalMs = interval →
        100 * (m : Int) < interval →
        (∀ j, j < m → (obs (t + 1 + 3 * j)).runFlag = true
          ∧ (obs (t + 1 + 3 * j + 1)).threadActive k = true
          ∧ (obs (t + 1 + 3 * j + 2)).menuPause = false) →
        ¬ ((obs (t + 1 + 3 * m)).runFlag = true
          ∧ (obs (t + 1 + 3 * m + 1)).threadActive k = true
          ∧ (obs (t + 1 + 3 * m + 2)).menuPause = false) →
        ∀ fuel, 3 * m + 4 ≤ fuel →
          runToHead k obs fuel t .loadInterval
            = some (.loopHead, (List.replicate m (100 : Int)).map .nap)) := by
  have hr : interval - 0 ≤ 100 * ((interval.toNat : Nat) : Int) := by omega
  refine ⟨?_, ?_, ?_, ?_, ?_, ?_, ?_⟩
  · intro obs t ht
    obtain ⟨naps, _, hb, hsum, hrun⟩ := inner_terminates k obs interval.toNat interval 0 (t + 1) hr
    refine ⟨3 * interval.toNat + 2, naps, ?_, hb, by simpa using hsum⟩
    intro fuel hfuel
    apply runToHead_le k obs (3 * interval.toNat + 2) fuel t _ _ hfuel
    rw [runToHead_loadInterval, ht]
    exact hrun
  · intro obs t ht hs
    obtain ⟨naps, hrun, hlen, hsum, hidx⟩ :=
      inner_steady k obs hs interval.toNat interval 0 (t + 1) hr
    simp only [sub_zero, zero_add] at hlen hsum hidx
    have hidx2 : ∀ j (hj : j < naps.length),
        naps[j] = min 100 (interval - (naps.take j).sum) := hidx
    refine ⟨3 * interval.toNat + 2, naps, ?_, ?_, ?_, ?_, ?_⟩
    · intro fuel hfuel
      apply runToHead_le k obs (3 * interval.toNat + 2) fuel t _ _ hfuel
      rw [runToHead_loadInterval, ht]
      exact hrun
    · intro hpos
      have h0 : 0 ≤ (interval + 99) / 100 := by omega
      rw [max_eq_left h0] at hlen
      rw [hlen]
      refine ⟨rfl, by omega, by omega⟩
    · intro hle
      have h0 : (interval + 99) / 100 ≤ 0 := by omega
      rw [max_eq_right h0] at hlen
      exact List.length_eq_zero.mp (by exact_mod_cast hlen)
    · intro j hj
      obtain ⟨naps1, _, hb, _, hrun1⟩ :=
        inner_terminates k obs interval.toNat interval 0 (t + 1) hr
      have hmap : naps1.map WEv.nap = naps.map WEv.nap := by
        rw [hrun1] at hrun
        exact congrArg Prod.snd (Option.some.inj hrun)
      have hinj : Function.Injective WEv.nap := fun a b h => by injection h
      have heq : naps1 = naps := List.map_injective_iff.mpr hinj hmap
      subst heq
      exact ⟨hidx2 j hj, hb _ (List.getElem_mem ..)⟩
    · intro h0; rw [hsum]; exact max_eq_left h0
  · intro s e
    refine ⟨?_, ?_, ?_, ?_, ?_, ?_⟩
    · intro h; simp [threadFuncStep, h]
    · intro h; simp [threadFuncStep, h]
    · intro h; simp [threadFuncStep, h]
    · simp only [threadFuncStep]; split_ifs <;> rfl
    · simp only [threadFuncStep]; split_ifs <;> rfl
    · intro h; simp [threadFuncStep, h]
  · intro obs obs2 fuel t h1 h2 hf
    cases fuel with
    | zero => rfl
    | succ n =>
      rw [runToHead_loadInterval, runToHead_loadInterval, h1, h2]
      exact inner_flags_only k obs obs2 hf n (t + 1) _ ⟨interval, 0, Or.inl rfl⟩
  · intro s e
    refine ⟨?_, ?_, ?_⟩
    · intro h1 h2; simp [threadFuncStep, h1, h2]
    · intro h1; simp [threadFuncStep, h1]
    · intro h1; simp [threadFuncStep, h1]
  · intro obs fuel t e
    refine ⟨fun h => runToHead_innerRun_exit k obs fuel t interval e h,
      fun h1 h2 h3 => runToHead_innerActive_exit k obs fuel t interval e ⟨h1, h2⟩ h3,
      fun h1 h2 h3 h4 => runToHead_innerPause_exit k obs fuel t interval e ⟨h1, h2⟩ h3 h4,
      fun h1 h2 h3 h4 => runToHead_inner_round k obs fuel t interval e ⟨h1, h2⟩ h3 h4⟩
  · intro obs t m ht hm hgood hbad fuel hfuel
    apply runToHead_le k obs (3 * m + 4) fuel t _ _ hfuel
    rw [runToHead_loadInterval, ht]
    exact inner_interrupted k obs interval m 0 (t + 1) (by omega) hgood hbad

/-- Witness for `sleep_loop`: an interval of 250 ms under steady flags is
slept as 100 + 100 + 50; and with an interval of 500 ms, a worker switched off
during its second sleep is back at line 35 after that sleep, having slept
100 + 100. -/
theorem sleep_loop_witness :
    (steady (allActive 250) 0).messageIntervalMs = 250
    ∧ (∀ j, (steady (allActive 250) j).runFlag = true
        ∧ (steady (allActive 250) j).threadActive 0 = true
        ∧ (steady (allActive 250) j).menuPause = false)
    ∧ (∃ (fuel0 : Nat) (naps : List Int),
        (∀ fuel, fuel0 ≤ fuel →
          runToHead 0 (steady (allActive 250)) fuel 0 .loadInterval
            = some (.loopHead, naps.map .nap))
        ∧ ((0 : Int) ≤ 250 → naps.sum = 250))
    ∧ runToHead 0 (steady (allActive 250)) 11 0 .loadInterval
        = some (.loopHead, [.nap 100, .nap 100, .nap 50])
    ∧ ((stoppedAt 7 500 0).messageIntervalMs = 500
        ∧ 100 * ((2 : Nat) : Int) < 500
        ∧ (∀ j, j < 2 → (stoppedAt 7 500 (0 + 1 + 3 * j)).runFlag = true
            ∧ (stoppedAt 7 500 (0 + 1 + 3 * j + 1)).threadActive 0 = true
            ∧ (stoppedAt 7 500 (0 + 1 + 3 * j + 2)).menuPause = false)
        ∧ ¬ ((stoppedAt 7 500 (0 + 1 + 3 * 2)).runFlag = true
            ∧ (stoppedAt 7 500 (0 + 1 + 3 * 2 + 1)).threadActive 0 = true
            ∧ (stoppedAt 7 500 (0 + 1 + 3 * 2 + 2)).menuPause = false)
        ∧ runToHead 0 (stoppedAt 7 500) 11 0 .loadInterval
            = some (.loopHead, (List.replicate 2 (100 : Int)).map .nap)) := by
  refine ⟨rfl, fun _ => ⟨rfl, rfl, rfl⟩, ?_, by decide, rfl, by decide, by decide, by decide,
    (sleep_loop 0 500).2.2.2.2.2.2 (stoppedAt 7 500) 0 2 rfl (by decide) (by decide)
      (by decide) 11 (by decide)⟩
  obtain ⟨fuel0, naps, h1, _, _, _, h5⟩ :=
    (sleep_loop 0 250).2.1 (steady (allActive 250)) 0 rfl (fun _ => ⟨rfl, rfl, rfl⟩)
  exact ⟨fuel0, naps, h1, h5⟩

/-! ## Worker: one evaluation of the transition rule -/

theorem runToHead_rule1 (k : Fin kThreadCount) (obs : Nat → Shared) (fuel t : Nat)
    (h : (obs t).runFlag = false) :
    runToHead k obs (fuel + 2) t .loopHead
      = some (.done, [.say (.terminated (workerId k))]) := by
  simp [runToHead, threadFuncStep, h]

theorem runToHead_rule2 (k : Fin kThreadCount) (obs : Nat → Shared) (fuel t : Nat)
    (h1 : (obs t).runFlag = true) (h2 : (obs (t + 1)).menuPause = true) :
    runToHead k obs (fuel + 2) t .loopHead = some (.loopHead, [.nap kPauseCheck]) := by
  simp [runToHead, threadFuncStep, h1, h2]

theorem runToHead_rule3 (k : Fin kThreadCount) (obs : Nat → Shared) (fuel t : Nat)
    (h1 : (obs t).runFlag = true) (h2 : (obs (t + 1)).menuPause = false)
    (h3 : (obs (t + 2)).threadActive k = false) :
    runToHead k obs (fuel + 3) t .loopHead = some (.loopHead, [.nap 100]) := by
  simp [runToHead, threadFuncStep, h1, h2, h3]

theorem runToHead_rule4 (k : Fin kThreadCount) (obs : Nat → Shared) (fuel t : Nat)
    (h1 : (obs t).runFlag = true) (h2 : (obs (t + 1)).menuPause = false)
    (h3 : (obs (t + 2)).threadActive k = true) :
    runToHead k obs (fuel + 4) t .loopHead
      = (runToHead k obs fuel (t + 4) .loadInterval).map
          fun q => (q.1, WEv.say (.working (workerId k)) :: q.2) := by
  simp [runToHead, threadFuncStep, h1, h2, h3, Option.map_map, Function.comp_def]

theorem rule4_terminates (k : Fin kThreadCount) (obs : Nat → Shared) (t : Nat)
    (h1 : (obs t).runFlag = true) (h2 : (obs (t + 1)).menuPause = false)
    (h3 : (obs (t + 2)).threadActive k = true) :
    ∃ (fuel0 : Nat) (naps : List Int), ∀ fuel, fuel0 ≤ fuel →
      runToHead k obs fuel t .loopHead
        = some (.loopHead, .say (.working (workerId k)) :: naps.map .nap) := by
  obtain ⟨naps, _, _, _, hrun⟩ :=
    inner_terminates k obs (obs (t + 4)).messageIntervalMs.toNat
      (obs (t + 4)).messageIntervalMs 0 (t + 5) (by omega)
  refine ⟨3 * (obs (t + 4)).messageIntervalMs.toNat + 6, naps, ?_⟩
  intro fuel hfuel
  obtain ⟨m, rfl⟩ : ∃ m, fuel = m + 5 := ⟨fuel - 5, by omega⟩
  rw [runToHead_rule4 k obs (m + 1) t h1 h2 h3, runToHead_loadInterval,
    runToHead_le k obs _ m (t + 5) _ _ (by omega) hrun]
  rfl

/-- C3. One evaluation of the loop body of worker `k`, started at the loop
condition of line 35; `runFlag` is read at step `t`, `menuPause` at step
`t + 1` and `threadActive[k]` at step `t + 2`. If `runFlag` is clear the worker
returns and its only output is its termination notice. Otherwise, if
`menuPause` is set, it sleeps `kPauseCheck` and prints nothing. Otherwise, if
`threadActive[k]` is clear, it sleeps 100 ms and prints nothing. Otherwise it
prints its work notice once and then only sleeps. In every case the evaluation
ends, and the work notice of worker `k` is printed iff `runFlag` was set,
`menuPause` clear and `threadActive[k]` set, and then exactly once. -/
theorem worker_transition_rule (k : Fin kThreadCount) (obs : Nat → Shared) (t : Nat) :
    ((obs t).runFlag = false →
      ∀ fuel, runToHead k obs (fuel + 2) t .loopHead
        = some (.done, [.say (.terminated (workerId k))]))
    ∧ ((obs t).runFlag = true → (obs (t + 1)).menuPause = true →
      ∀ fuel, runToHead k obs (fuel + 2) t .loopHead = some (.loopHead, [.nap kPauseCheck]))
    ∧ ((obs t).runFlag = true → (obs (t + 1)).menuPause = false →
      (obs (t + 2)).threadActive k = false →
      ∀ fuel, runToHead k obs (fuel + 3) t .loopHead = some (.loopHead, [.nap 100]))
    ∧ ((obs t).runFlag = true → (obs (t + 1)).menuPause = false →
      (obs (t + 2)).threadActive k = true →
      ∃ (fuel0 : Nat) (naps : List Int), ∀ fuel, fuel0 ≤ fuel →
        runToHead k obs fuel t .loopHead
          = some (.loopHead, .say (.working (workerId k)) :: naps.map .nap))
    ∧ (∃ (fuel0 : Nat) (pc : WPc) (evs : List WEv),
        (∀ fuel, fuel0 ≤ fuel → runToHead k obs fuel t .loopHead = some (pc, evs))
        ∧ (WEv.say (.working (workerId k)) ∈ evs
            ↔ ((obs t).runFlag = true ∧ (obs (t + 1)).menuPause = false
                ∧ (obs (t + 2)).threadActive k = true))
        ∧ (∀ id, WEv.say (.working id) ∈ evs → id = workerId k)
        ∧ evs.count (.say (.working (workerId k))) ≤ 1
        ∧ (WEv.say (.terminated (workerId k)) ∈ evs ↔ (obs t).runFlag = false)
        ∧ (pc = .done ↔ (obs t).runFlag = false))
    ∧ (∀ s, threadFuncStep k s .done = (.done, none)) := by
  refine ⟨fun h fuel => runToHead_rule1 k obs fuel t h,
    fun h1 h2 fuel => runToHead_rule2 k obs fuel t h1 h2,
    fun h1 h2 h3 fuel => runToHead_rule3 k obs fuel t h1 h2 h3,
    fun h1 h2 h3 => rule4_terminates k obs t h1 h2 h3, ?_, fun s => rfl⟩
  cases h1 : (obs t).runFlag with
  | false =>
    refine ⟨2, .done, [.say (.terminated (workerId k))], ?_, by simp, by simp, by simp,
      by simp, by simp⟩
    intro fuel hfuel
    obtain ⟨m, rfl⟩ : ∃ m, fuel = m + 2 := ⟨fuel - 2, by omega⟩
    exact runToHead_rule1 k obs m t h1
  | true =>
    cases h2 : (obs (t + 1)).menuPause with
    | true =>
      refine ⟨2, .loopHead, [.nap kPauseCheck], ?_, by simp, by simp, by simp,
        by simp, by simp⟩
      intro fuel hfuel
      obtain ⟨m, rfl⟩ : ∃ m, fuel = m + 2 := ⟨fuel - 2, by omega⟩
      exact runToHead_rule2 k obs m t h1 h2
    | false =>
      cases h3 : (obs (t + 2)).threadActive k with
      | false =>
        refine ⟨3, .loopHead, [.nap 100], ?_, by simp, by simp, by simp, by simp, by simp⟩
        intro fuel hfuel
        obtain ⟨m, rfl⟩ : ∃ m, fuel = m + 3 := ⟨fuel - 3, by omega⟩
        exact runToHead_rule3 k obs m t h1 h2 h3
      | true =>
        obtain ⟨fuel0, naps, hrun⟩ := rule4_terminates k obs t h1 h2 h3
        refine ⟨fuel0, .loopHead, _, hrun, by simp, ?_, ?_, by simp, by simp⟩
        · intro id hid
          simpa using hid
        · rw [List.count_cons_self, List.count_eq_zero_of_not_mem (by simp)]

/-- Witness for `worker_transition_rule`: a worker that is not active sleeps
100 ms and prints nothing. -/
theorem worker_transition_rule_witness :
    (steady Shared.initial 0).runFlag = true
    ∧ (steady Shared.initial (0 + 1)).menuPause = false
    ∧ (steady Shared.initial (0 + 2)).threadActive 0 = false
    ∧ runToHead 0 (steady Shared.initial) (0 + 3) 0 .loopHead = some (.loopHead, [.nap 100]) :=
  ⟨rfl, rfl, rfl, (worker_transition_rule 0 (steady Shared.initial) 0).2.2.1 rfl rfl rfl 0⟩

/-! ## The action list of an iteration replays to its final state -/

theorem dispatch_replay (choice : Int) (s0 s : Shared) (i : List (Option Int)) (a : List Act)
    (h : s = a.foldl Act.apply s0) :
    (dispatch choice ⟨s, i, a⟩).1.st = (dispatch choice ⟨s, i, a⟩).1.acts.foldl Act.apply s0 := by
  subst h
  unfold dispatch
  simp only [Ctl.act, Ctl.readInt, printLocked, showStatus, storeAll]
  split_ifs <;> (try rcases i with _ | ⟨_ | id, rest⟩) <;> (try simp [List.foldl_append])
  split_ifs <;> simp [List.foldl_append]

theorem waitForEnter_replay (tty : Bool) (s0 : Shared) (c : Ctl)
    (h : c.st = c.acts.foldl Act.apply s0) :
    (waitForEnter tty c).st = (waitForEnter tty c).acts.foldl Act.apply s0 := by
  cases tty <;> simp [waitForEnter, Ctl.act, List.foldl_append, h]

/-- The shared state reached by an iteration of the menu loop is the one
obtained by performing its actions one after the other. -/
theorem menuBody_replay (tty : Bool) (s : Shared) (i : List (Option Int)) :
    (menuBody tty ⟨s, i, []⟩).1.st
      = (menuBody tty ⟨s, i, []⟩).1.acts.foldl Act.apply s := by
  rcases i with _ | ⟨_ | choice, rest⟩
  · rw [menuBody_eof]; simp [Act.apply]
  · rw [menuBody_none]; simp [Act.apply]
  · rw [menuBody_some]
    have hd := dispatch_replay choice s { s with menuPause := true } rest
      ([] ++ [.storePause true, .print .menu, .readInt (some choice)]) (by simp [Act.apply])
    simp only [List.nil_append] at hd ⊢
    split_ifs
    · simp [Ctl.act, List.foldl_append, hd]
    · exact waitForEnter_replay tty s _ hd
    · simp [Ctl.act, List.foldl_append, hd]

/-! ## The race on the menu prompt -/

/-- C9 fails on the code. With the input `4`, `0` and the schedule
`raceSchedule`, the program runs to its end, and its log shows the work notice
of worker 1 after the controller has set `menuPause` and printed the menu and
before it reads the menu choice; when the notice is written `menuPause` is
set, and worker 1 stands at the print of line 48, past its test of line 36. -/
theorem menu_prompt_race :
    (runSched true racePrefix (Sys.initial [some 4, some 0])).map
        (fun sys => (sys.shared.menuPause, sys.workers 0)) = some (true, .announce)
    ∧ (runSched true raceSchedule (Sys.initial [some 4, some 0])).map (fun sys => sys.log)
      = some [.ctl (.storeActive 0 false), .ctl (.storeActive 1 false),
          .ctl (.storeActive 2 false), .ctl (.spawn 0), .ctl (.spawn 1), .ctl (.spawn 2),
          .ctl (.storePause true), .ctl (.print .menu), .ctl (.readInt (some 4)),
          .ctl (.storeActive 0 true), .ctl (.storeActive 1 true), .ctl (.storeActive 2 true),
          .ctl (.print .allStarted), .ctl .enterWait, .ctl .skipBuffered,
          .ctl (.print .pressEnter), .ctl (.storePause false), .ctl .getChar,
          .ctl (.storePause true),
          .ctl (.storePause true), .ctl (.print .menu),
          .wrk 0 (.say (.working 1)),
          .ctl (.readInt (some 0)), .ctl (.storeRun false), .ctl (.storePause false),
          .ctl (.storeActive 0 false), .ctl (.storeActive 1 false),
          .ctl (.storeActive 2 false),
          .wrk 0 (.say (.terminated 1)), .wrk 1 (.say (.terminated 2)),
          .wrk 2 (.say (.terminated 3)),
          .ctl (.join 0), .ctl (.join 1), .ctl (.join 2), .ctl (.print .programFinished)]
    ∧ (runSched true raceSchedule (Sys.initial [some 4, some 0])).map
        (fun sys => quietPrompts false sys.log) = some false := by
  decide

theorem wrun_succ_snd (k : Fin kThreadCount) (obs : Nat → Shared) (n t : Nat) (pc : WPc) :
    (wrun k obs (n + 1) t pc).2
      = (threadFuncStep k (obs t) pc).2.toList
        ++ (wrun k obs n (t + 1) (threadFuncStep k (obs t) pc).1).2 := by
  simp [wrun]

theorem paused_step_notices (k : Fin kThreadCount) (s : Shared) (pc : WPc)
    (hp : s.menuPause = true) :
    ((threadFuncStep k s pc).2.toList.filter isWorkNotice).length
      + pendingNotices (threadFuncStep k s pc).1 ≤ pendingNotices pc := by
  cases pc <;> simp only [threadFuncStep, hp] <;> (try split_ifs) <;>
    simp [pendingNotices, isWorkNotice]

/-- While `menuPause` stays set, a worker prints at most one more work notice,
and none unless it has already passed the test of line 36 and not yet printed. -/
theorem paused_worker_notices (k : Fin kThreadCount) (obs : Nat → Shared)
    (hp : ∀ j, (obs j).menuPause = true) (n : Nat) :
    ∀ (t : Nat) (pc : WPc),
      ((wrun k obs n t pc).2.filter isWorkNotice).length ≤ pendingNotices pc := by
  induction n with
  | zero => intro t pc; simp [wrun]
  | succ n ih =>
    intro t pc
    rw [wrun_succ_snd, List.filter_append, List.length_append]
    have h1 := paused_step_notices k (obs t) pc (hp t)
    have h2 := ih (t + 1) (threadFuncStep k (obs t) pc).1
    omega

/-! ## Monotonicity of `runFlag` -/

theorem dispatch_runFlag (choice : Int) (c : Ctl) :
    (dispatch choice c).1.st.runFlag = if choice = 0 then false else c.st.runFlag := by
  obtain ⟨s, i, a⟩ := c
  unfold dispatch
  simp only [Ctl.act, Ctl.readInt, printLocked, showStatus, storeAll]
  split_ifs <;> (try rcases i with _ | ⟨_ | id, rest⟩) <;>
    simp [Act.apply] <;> (try split_ifs) <;> simp_all

theorem dispatch_storeRun (choice : Int) (s : Shared) (i : List (Option Int)) (a : List Act)
    (b : Bool) (h : Act.storeRun b ∈ (dispatch choice ⟨s, i, a⟩).1.acts) :
    Act.storeRun b ∈ a ∨ b = false := by
  revert h
  unfold dispatch
  simp only [Ctl.act, Ctl.readInt, printLocked, showStatus, storeAll]
  split_ifs <;> (try rcases i with _ | ⟨_ | id, rest⟩) <;>
    (try simp) <;> (try split_ifs) <;> (try simp) <;> (try tauto)

theorem storeRun_not_mem_wait (tty : Bool) (c : Ctl) (b : Bool)
    (h : Act.storeRun b ∈ (waitForEnter tty c).acts) : Act.storeRun b ∈ c.acts := by
  revert h
  cases tty <;> simp [waitForEnter, Ctl.act]

theorem menuBody_storeRun (tty : Bool) (s : Shared) (i : List (Option Int)) (a : List Act)
    (b : Bool) (h : Act.storeRun b ∈ (menuBody tty ⟨s, i, a⟩).1.acts) :
    Act.storeRun b ∈ a ∨ b = false := by
  rcases i with _ | ⟨_ | choice, rest⟩
  · rw [menuBody_eof] at h; left; simpa using h
  · rw [menuBody_none] at h; left; simpa using h
  · rw [menuBody_some] at h
    have hd := dispatch_storeRun choice { s with menuPause := true } rest
      (a ++ [.storePause true, .print .menu, .readInt (some choice)]) b
    have ha : Act.storeRun b ∈ a ++ [.storePause true, .print .menu, .readInt (some choice)]
        → Act.storeRun b ∈ a := by
      intro h; simpa using h
    simp only at h
    split_ifs at h
    · have : Act.storeRun b ∈ (dispatch choice ⟨{ s with menuPause := true }, rest,
          a ++ [.storePause true, .print .menu, .readInt (some choice)]⟩).1.acts := by
        simpa [Ctl.act] using h
      rcases hd this with h1 | h1
      · exact Or.inl (ha h1)
      · exact Or.inr h1
    · rcases hd (storeRun_not_mem_wait tty _ b h) with h1 | h1
      · exact Or.inl (ha h1)
      · exact Or.inr h1
    · have : Act.storeRun b ∈ (dispatch choice ⟨{ s with menuPause := true }, rest,
          a ++ [.storePause true, .print .menu, .readInt (some choice)]⟩).1.acts := by
        simpa [Ctl.act] using h
      rcases hd this with h1 | h1
      · exact Or.inl (ha h1)
      · exact Or.inr h1

theorem menuBody_runFlag (tty : Bool) (c : Ctl) :
    (menuBody tty c).1.st.runFlag
      = if c.input.head? = some (some 0) then false else c.st.runFlag := by
  obtain ⟨s, i, a⟩ := c
  rcases i with _ | ⟨_ | choice, rest⟩
  · rw [menuBody_eof]; simp
  · rw [menuBody_none]; simp
  · rw [menuBody_some]
    have hd := dispatch_runFlag choice ⟨{ s with menuPause := true }, rest,
          a ++ [.storePause true, .print .menu, .readInt (some choice)]⟩
    simp only [List.head?_cons, Option.some.injEq]
    simp only at hd ⊢
    split_ifs at hd ⊢ <;> simp_all [Ctl.act, Act.apply, waitForEnter_st]

theorem menuLoop_runFlag (tty : Bool) (fuel : Nat) :
    ∀ c : Ctl, (menuLoop tty fuel c).1.st.runFlag = true → c.st.runFlag = true := by
  induction fuel with
  | zero => intro c h; exact h
  | succ n ih =>
    intro c h
    by_contra hc
    have hf : c.st.runFlag = false := by simpa using hc
    rw [menuLoop] at h
    simp [hf] at h

theorem shutdown_acts (c : Ctl) :
    (shutdown c).acts = c.acts ++ [.storeActive 0 false, .storeActive 1 false,
      .storeActive 2 false, .join 0, .join 1, .join 2, .print .programFinished] := by
  simp [shutdown, storeAll_apply, printLocked, Ctl.act]

theorem startup_acts (c : Ctl) :
    (startup c).acts = c.acts ++ [.storeActive 0 false, .storeActive 1 false,
      .storeActive 2 false, .spawn 0, .spawn 1, .spawn 2] := by
  simp [startup, storeAll_apply, Ctl.act]

theorem apply_runFlag (s : Shared) (a : Act) (h : a ≠ .storeRun true)
    (hs : s.runFlag = false) : (a.apply s).runFlag = false := by
  cases a <;> simp_all [Act.apply]

theorem cstep_runFlag (tty : Bool) (sys sys1 : Sys) (hp : Act.storeRun true ∉ sys.pending)
    (h : cstep tty sys = some sys1) :
    Act.storeRun true ∉ sys1.pending
    ∧ (sys.shared.runFlag = false → sys1.shared.runFlag = false) := by
  unfold cstep at h
  split at h
  · rename_i a rest hpend
    rw [hpend] at hp
    have ha : a ≠ .storeRun true := fun e => hp (by simp [e])
    have hrest : Act.storeRun true ∉ rest := fun e => hp (List.mem_cons_of_mem _ e)
    split at h
    · split_ifs at h
      cases h
      exact ⟨hrest, fun hs => apply_runFlag _ _ ha hs⟩
    · cases h
      exact ⟨hrest, fun hs => apply_runFlag _ _ ha hs⟩
    · cases h
      exact ⟨hrest, fun hs => apply_runFlag _ _ ha hs⟩
  · split at h
    · cases h
    · split_ifs at h with hr
      · split at h
        · rename_i c hb
          cases h
          refine ⟨?_, fun hs => hs⟩
          intro hm
          have : Act.storeRun true ∈ (menuBody tty ⟨sys.shared, sys.input, []⟩).1.acts := by
            rw [hb]; exact hm
          rcases menuBody_storeRun tty _ _ _ _ this with h1 | h1
          · simp at h1
          · simp at h1
        · rename_i c hb
          cases h
          refine ⟨?_, fun hs => hs⟩
          intro hm
          simp only [shutdown_acts, List.mem_append] at hm
          rcases hm with hm | hm
          · have : Act.storeRun true ∈ (menuBody tty ⟨sys.shared, sys.input, []⟩).1.acts := by
              rw [hb]; exact hm
            rcases menuBody_storeRun tty _ _ _ _ this with h1 | h1
            · simp at h1
            · simp at h1
          · simp at hm
      · cases h
        refine ⟨?_, fun hs => hs⟩
        simp [shutdown_acts]

theorem runSched_runFlag (tty : Bool) (sched : List Tid) :
    ∀ sys sys1 : Sys, Act.storeRun true ∉ sys.pending → runSched tty sched sys = some sys1 →
      Act.storeRun true ∉ sys1.pending
      ∧ (sys.shared.runFlag = false → sys1.shared.runFlag = false) := by
  induction sched with
  | nil => intro sys sys1 hp h; cases h; exact ⟨hp, fun hs => hs⟩
  | cons tid rest ih =>
    intro sys sys1 hp h
    rw [runSched] at h
    cases tid with
    | controller =>
      cases hc : cstep tty sys with
      | none => simp [step, hc] at h
      | some sys2 =>
        simp only [step, hc] at h
        obtain ⟨g1, g2⟩ := cstep_runFlag tty sys sys2 hp hc
        obtain ⟨g3, g4⟩ := ih sys2 sys1 g1 h
        exact ⟨g3, fun hs => g4 (g2 hs)⟩
    | worker k =>
      simp only [step] at h
      exact ih (workerStep k sys) sys1 hp h

theorem runSched_append (tty : Bool) (sched1 sched2 : List Tid) :
    ∀ sys : Sys, runSched tty (sched1 ++ sched2) sys
      = (runSched tty sched1 sys).bind (runSched tty sched2) := by
  induction sched1 with
  | nil => intro sys; rfl
  | cons tid rest ih =>
    intro sys
    simp only [List.cons_append, runSched]
    cases step tty sys tid with
    | none => rfl
    | some sys1 => exact ih sys1

theorem dispatch_storeRun_exit (choice : Int) (s : Shared) (i : List (Option Int))
    (a : List Act) (b : Bool) (h : Act.storeRun b ∈ (dispatch choice ⟨s, i, a⟩).1.acts) :
    Act.storeRun b ∈ a ∨ choice = 0 := by
  revert h
  unfold dispatch
  simp only [Ctl.act, Ctl.readInt, printLocked, showStatus, storeAll]
  split_ifs <;> (try rcases i with _ | ⟨_ | id, rest⟩) <;>
    (try simp) <;> (try split_ifs) <;> (try simp) <;> (try tauto)

theorem menuBody_storeRun_exit (tty : Bool) (s : Shared) (i : List (Option Int))
    (b : Bool) (h : Act.storeRun b ∈ (menuBody tty ⟨s, i, []⟩).1.acts) :
    b = false ∧ i.head? = some (some 0) := by
  have hb : b = false := by
    rcases menuBody_storeRun tty s i [] b h with h1 | h1
    · simp at h1
    · exact h1
  refine ⟨hb, ?_⟩
  rcases i with _ | ⟨_ | choice, rest⟩
  · rw [menuBody_eof] at h; simp at h
  · rw [menuBody_none] at h; simp at h
  · rw [menuBody_some] at h
    have hd := dispatch_storeRun_exit choice { s with menuPause := true } rest
      ([] ++ [.storePause true, .print .menu, .readInt (some choice)]) b
    have hc : choice = 0 := by
      simp only at h
      split_ifs at h
      · have : Act.storeRun b ∈ (dispatch choice ⟨{ s with menuPause := true }, rest,
            [] ++ [.storePause true, .print .menu, .readInt (some choice)]⟩).1.acts := by
          simpa [Ctl.act] using h
        rcases hd this with h1 | h1
        · simp at h1
        · exact h1
      · rcases hd (storeRun_not_mem_wait tty _ b h) with h1 | h1
        · simp at h1
        · exact h1
      · have : Act.storeRun b ∈ (dispatch choice ⟨{ s with menuPause := true }, rest,
            [] ++ [.storePause true, .print .menu, .readInt (some choice)]⟩).1.acts := by
          simpa [Ctl.act] using h
        rcases hd this with h1 | h1
        · simp at h1
        · exact h1
    simp [hc]

/-- C8. `runFlag` is set when `main` is entered, and in every execution of
the program (any input, any schedule of the controller and the workers) a
state in which `runFlag` is clear is followed only by states in which it is
clear. A step of a worker leaves the shared state as it is; an iteration of
the menu loop changes `runFlag` only when the choice read is 0, and then to
`false`; a `runFlag` store occurs in an iteration only for the choice 0 and
stores `false`; startup, shutdown and `waitForEnter` do not write it. -/
theorem runFlag_monotone (tty : Bool) (input : List (Option Int)) (sched1 sched2 : List Tid)
    (sys1 sys2 : Sys)
    (h1 : runSched tty sched1 (Sys.initial input) = some sys1)
    (h2 : runSched tty sched2 sys1 = some sys2) :
    (Sys.initial input).shared.runFlag = true
    ∧ (sys1.shared.runFlag = false → sys2.shared.runFlag = false)
    ∧ (∀ (k : Fin kThreadCount) (sys : Sys), (workerStep k sys).shared = sys.shared)
    ∧ (∀ c : Ctl, (menuBody tty c).1.st.runFlag
        = if c.input.head? = some (some 0) then false else c.st.runFlag)
    ∧ (∀ (s : Shared) (i : List (Option Int)) (b : Bool),
        Act.storeRun b ∈ (menuBody tty ⟨s, i, []⟩).1.acts →
          b = false ∧ i.head? = some (some 0))
    ∧ (∀ (c : Ctl) (fuel : Nat), (menuLoop tty fuel c).1.st.runFlag = true →
        c.st.runFlag = true)
    ∧ (∀ c : Ctl, (startup c).st.runFlag = c.st.runFlag
        ∧ (shutdown c).st.runFlag = c.st.runFlag
        ∧ (waitForEnter tty c).st.runFlag = c.st.runFlag) := by
  have hinit : Act.storeRun true ∉ (Sys.initial input).pending := by
    simp [Sys.initial, startup_acts]
  obtain ⟨hp1, _⟩ := runSched_runFlag tty sched1 _ _ hinit h1
  obtain ⟨_, hmono⟩ := runSched_runFlag tty sched2 _ _ hp1 h2
  refine ⟨rfl, hmono, fun k sys => rfl, menuBody_runFlag tty,
    fun s i b h => menuBody_storeRun_exit tty s i b h,
    fun c fuel h => menuLoop_runFlag tty fuel c h, ?_⟩
  intro c
  refine ⟨?_, ?_, ?_⟩
  · simp [startup, storeAll_apply, Ctl.act, Act.apply]
  · simp [shutdown, storeAll_apply, printLocked, Ctl.act, Act.apply]
  · rw [waitForEnter_st]

/-- Witness for `runFlag_monotone`: after the choice 0 the flag is clear, and
it is still clear after further steps of a worker and of the controller. -/
theorem runFlag_monotone_witness :
    ∃ sys1 sys2 : Sys,
      runSched true (turns 11 .controller) (Sys.initial [some 0]) = some sys1
      ∧ runSched true [.worker 0, .controller, .worker 0] sys1 = some sys2
      ∧ sys1.shared.runFlag = false ∧ sys2.shared.runFlag = false := by
  have hsome : (runSched true (turns 11 .controller ++ [.worker 0, .controller, .worker 0])
      (Sys.initial [some 0])).isSome = true := by decide
  have hflag : (runSched true (turns 11 .controller) (Sys.initial [some 0])).map
      (fun sys => sys.shared.runFlag) = some false := by decide
  rw [runSched_append] at hsome
  cases h1 : runSched true (turns 11 .controller) (Sys.initial [some 0]) with
  | none => rw [h1] at hflag; simp at hflag
  | some sys1 =>
    rw [h1] at hsome hflag
    cases h2 : runSched true [.worker 0, .controller, .worker 0] sys1 with
    | none => simp [h2] at hsome
    | some sys2 =>
      have hf1 : sys1.shared.runFlag = false := by simpa using hflag
      exact ⟨sys1, sys2, rfl, h2, hf1,
        (runFlag_monotone true [some 0] _ _ sys1 sys2 h1 h2).2.1 hf1⟩
end Threads
